import Mathlib

/-!
Shallow embedding of `src/ebooktest2/PageLayout.cpp` (SumatraPDF ebook test
layout engine).  `REAL` (GDI+ float) is modelled by `ℚ`; fonts are
modelled by their style descriptor (the font cache deduplicates by the
(name, size, style) triple, and name/size are fixed during a layout
session, so a handle is determined by the style); text measurement,
image decoding and font construction are external capabilities and enter
the model as explicit parameters.
-/

set_option autoImplicit false

/-- Bounding box, mirroring GDI+ `RectF`. -/
structure RectF where
  X : ℚ
  Y : ℚ
  Width : ℚ
  Height : ℚ
  deriving DecidableEq, Repr

/-- The all-zero rectangle (a default-initialized `RectF`). -/
def rect0 : RectF := ⟨0, 0, 0, 0⟩

/-- Font style bitmask: {bold, italic, underline, strikeout} flags. -/
structure FontStyle where
  bold : Bool
  italic : Bool
  underline : Bool
  strikeout : Bool
  deriving DecidableEq, Repr

/-- The regular (no flags) style, `FontStyleRegular`. -/
def FontStyleRegular : FontStyle := ⟨false, false, false, false⟩

/-- One of the four independent style flags. -/
inductive StyleFlag
  | bold
  | italic
  | underline
  | strikeout
  deriving DecidableEq, Repr

/-- Set or clear one style flag (the `|` / `& ~` operations of
`PageLayout::ChangeFont` specialised to a single-bit mask). -/
def FontStyle.set (st : FontStyle) (f : StyleFlag) (v : Bool) : FontStyle :=
  match f with
  | .bold => { st with bold := v }
  | .italic => { st with italic := v }
  | .underline => { st with underline := v }
  | .strikeout => { st with strikeout := v }

/-- Draw instruction (the C++ `DrawInstr` tagged union; every variant
carries a `bbox` field exactly as the union does). -/
inductive DrawInstr
  | setFont (font : FontStyle) (bbox : RectF)
  | str (s : String) (bbox : RectF)
  | line (bbox : RectF)
  | image (imgId : Nat) (bbox : RectF)
  deriving DecidableEq, Repr

/-- The bounding box of an instruction. -/
def DrawInstr.bbox : DrawInstr → RectF
  | .setFont _ bb => bb
  | .str _ bb => bb
  | .line bb => bb
  | .image _ bb => bb

/-- `instr->bbox.X += d` (used by `JustifyLineBoth`, which shifts every
instruction of the line regardless of its type). -/
def DrawInstr.addBboxX (i : DrawInstr) (d : ℚ) : DrawInstr :=
  match i with
  | .setFont f bb => .setFont f { bb with X := bb.X + d }
  | .str s bb => .str s { bb with X := bb.X + d }
  | .line bb => .line { bb with X := bb.X + d }
  | .image g bb => .image g { bb with X := bb.X + d }

/-- `InstrTypeString == instr->type`. -/
def DrawInstr.isStr : DrawInstr → Bool
  | .str _ _ => true
  | _ => false

/-- `InstrTypeLine == instr->type`. -/
def DrawInstr.isLine : DrawInstr → Bool
  | .line _ => true
  | _ => false

/-- `InstrTypeImage == instr->type`. -/
def DrawInstr.isImage : DrawInstr → Bool
  | .image _ _ => true
  | _ => false

/-- Justification modes (`AlignAttr` values used by the engine). -/
inductive AlignAttr
  | left
  | right
  | center
  | justify
  deriving DecidableEq, Repr

/-- The mutable state of `PageLayout` during a layout session.  The first
five fields are constant during layout (set by `StartLayout`); `pages`
collects the pages handed to the page observer, in order;
`pageStartFont` is ghost state recording the font that was current when
`currPage` was started (used to state the self-containedness
invariant). -/
structure LayoutState where
  pageDx : ℚ
  pageDy : ℚ
  lineSpacing : ℚ
  spaceDx : ℚ
  hasObserver : Bool
  currFontStyle : FontStyle
  currFont : FontStyle
  currJustification : AlignAttr
  currX : ℚ
  currY : ℚ
  newLinesCount : Nat
  currPage : List DrawInstr
  currLineInstrOffset : Nat
  pageStartFont : FontStyle
  pages : List (List DrawInstr)
  deriving DecidableEq, Repr

/-- `GetInstructionsForCurrentLine`: the instructions from the recorded
line-start offset to the end of the current page. -/
def lineInstrs (s : LayoutState) : List DrawInstr :=
  s.currPage.drop s.currLineInstrOffset

/-- `IsCurrentLineEmpty`: `currLineInstrOffset == currPage->Count()`. -/
def IsCurrentLineEmpty (s : LayoutState) : Bool :=
  s.currLineInstrOffset == s.currPage.length

/-- Accumulation loop of `GetCurrentLineDx`: starting from `-spaceDx`,
add `width + spaceDx` for every string instruction of the line. -/
def lineDxAux (sp : ℚ) : ℚ → List DrawInstr → ℚ
  | acc, [] => acc
  | acc, .str _ bb :: rest => lineDxAux sp (acc + bb.Width + sp) rest
  | acc, _ :: rest => lineDxAux sp acc rest

/-- `PageLayout::GetCurrentLineDx` (clamped to be nonnegative). -/
def GetCurrentLineDx (s : LayoutState) : ℚ :=
  let dx := lineDxAux s.spaceDx (-s.spaceDx) (lineInstrs s)
  if dx < 0 then 0 else dx

/-- The in-place update loop of `LayoutLeftStartingAt`: position each
string instruction left-to-right starting at `x`, setting its `bbox.X`
and `bbox.Y`; other instruction types are left untouched and do not
advance the cursor. -/
def layoutLine (sp y : ℚ) : ℚ → List DrawInstr → List DrawInstr
  | _, [] => []
  | x, .str t bb :: rest =>
      .str t { bb with X := x, Y := y } :: layoutLine sp y (x + bb.Width + sp) rest
  | x, i :: rest => i :: layoutLine sp y x rest

/-- The final value of `curr.x` after the `LayoutLeftStartingAt` loop. -/
def layoutEndX (sp : ℚ) : ℚ → List DrawInstr → ℚ
  | x, [] => x
  | x, .str _ bb :: rest => layoutEndX sp (x + bb.Width + sp) rest
  | x, _ :: rest => layoutEndX sp x rest

/-- `PageLayout::LayoutLeftStartingAt`. -/
def LayoutLeftStartingAt (offX : ℚ) (s : LayoutState) : LayoutState :=
  { s with
    currX := layoutEndX s.spaceDx offX (lineInstrs s)
    currPage :=
      s.currPage.take s.currLineInstrOffset ++
        layoutLine s.spaceDx s.currY offX (lineInstrs s) }

/-- The shifting loop of `JustifyLineBoth`:
`for (size_t n = 1; ++c < end; n++) c->bbox.X += n * extraSpaceDx;` —
the instruction at index `n` (any type) is shifted right by
`n * extraSpaceDx`; the call below starts at index 1 so the first
instruction is not shifted. -/
def shiftInstrs (e : ℚ) : Nat → List DrawInstr → List DrawInstr
  | _, [] => []
  | n, i :: rest => i.addBboxX ((n : ℚ) * e) :: shiftInstrs e (n + 1) rest

/-- `PageLayout::JustifyLineBoth`. -/
def JustifyLineBoth (s : LayoutState) : LayoutState :=
  let margin := s.pageDx - GetCurrentLineDx s
  let s1 := LayoutLeftStartingAt 0 s
  let len := (lineInstrs s1).length
  let extraSpaceDx := if 1 < len then margin / ((len - 1 : Nat) : ℚ) else margin
  { s1 with
    currPage :=
      s1.currPage.take s1.currLineInstrOffset ++
        (match lineInstrs s1 with
         | [] => []
         | first :: rest => first :: shiftInstrs extraSpaceDx 1 rest) }

/-- `PageLayout::JustifyLine`. -/
def JustifyLine (mode : AlignAttr) (s : LayoutState) : LayoutState :=
  if IsCurrentLineEmpty s then s
  else
    let s1 :=
      match mode with
      | .left => LayoutLeftStartingAt 0 s
      | .right => LayoutLeftStartingAt (s.pageDx - GetCurrentLineDx s) s
      | .center => LayoutLeftStartingAt ((s.pageDx - GetCurrentLineDx s) / 2) s
      | .justify => JustifyLineBoth s
    { s1 with currLineInstrOffset := s1.currPage.length }

/-- `PageLayout::AddSetFontInstr`. -/
def AddSetFontInstr (font : FontStyle) (s : LayoutState) : LayoutState :=
  { s with currPage := s.currPage ++ [DrawInstr.setFont font rect0] }

/-- `PageLayout::StartNewPage`: hand the current page to the observer
(when one is registered, otherwise drop it), reset the cursor and the
newline counter, and start the fresh page with a `SetFont` for the
current font. -/
def StartNewPage (s : LayoutState) : LayoutState :=
  let s0 :=
    { s with pages := if s.hasObserver then s.pages ++ [s.currPage] else s.pages }
  let s1 :=
    { s0 with
      currPage := ([] : List DrawInstr), currX := 0, currY := 0,
      newLinesCount := 0, pageStartFont := s.currFont }
  let s2 := AddSetFontInstr s1.currFont s1
  { s2 with currLineInstrOffset := s2.currPage.length }

/-- The justification performed by `StartNewLine`: a paragraph break on
a justified line falls back to left alignment. -/
def lineBreakJustify (isParagraphBreak : Bool) (s : LayoutState) : LayoutState :=
  if isParagraphBreak ∧ s.currJustification = AlignAttr.justify then
    JustifyLine AlignAttr.left s
  else
    JustifyLine s.currJustification s

/-- `PageLayout::StartNewLine`. -/
def StartNewLine (isParagraphBreak : Bool) (s : LayoutState) : LayoutState :=
  if s.currY = 0 ∧ IsCurrentLineEmpty s = true then s
  else
    let s1 := lineBreakJustify isParagraphBreak s
    let s2 :=
      { s1 with
        currX := 0, currY := s1.currY + s1.lineSpacing,
        currLineInstrOffset := s1.currPage.length }
    if s2.currY + s2.lineSpacing > s2.pageDy then StartNewPage s2 else s2

/-- `PageLayout::AddHr`. -/
def AddHr (s : LayoutState) : LayoutState :=
  let s1 := StartNewLine true s
  let s2 := { s1 with currX := 0 }
  let s3 := if s2.currY + s2.lineSpacing > s2.pageDy then StartNewPage s2 else s2
  let s4 :=
    { s3 with
      currPage :=
        s3.currPage ++ [DrawInstr.line ⟨s3.currX, s3.currY, s3.pageDx, s3.lineSpacing⟩] }
  StartNewLine true s4

/-- A token handed to `AddWord` (the C++ `WordInfo`). -/
structure WordInfo where
  s : String
  deriving DecidableEq, Repr

/-- `WordInfo::IsNewline`: length 1 and the single character is `'\n'`. -/
def WordInfo.IsNewline (wi : WordInfo) : Bool := wi.s == "\n"

/-- `PageLayout::AddWord`.  `measure font text` is the external
`MeasureText` capability returning the measured (width, height); the
measured box has its `Y` set to the (possibly just-advanced) cursor `y`,
its `X` is finalised later, at line justification. -/
def AddWord (measure : FontStyle → String → ℚ × ℚ) (wi : WordInfo)
    (st : LayoutState) : LayoutState :=
  if wi.IsNewline then
    let st1 := { st with newLinesCount := st.newLinesCount + 1 }
    if st1.newLinesCount = 2 then
      let needsTwo := st.currX ≠ 0
      let st2 := StartNewLine true st1
      if needsTwo then StartNewLine true st2 else st2
    else st1
  else
    let st1 := { st with newLinesCount := 0 }
    let wh := measure st1.currFont wi.s
    let dx := wh.1
    let st2 := if st1.currX + dx > st1.pageDx then StartNewLine false st1 else st1
    { st2 with
      currPage := st2.currPage ++ [DrawInstr.str wi.s ⟨0, st2.currY, wh.1, wh.2⟩],
      currX := st2.currX + dx + st2.spaceDx }

/-- `PageLayout::AddImage`, for an image that decoded successfully with
pixel dimensions `w × h` (a failed decode returns before touching any
state, so it is not modelled). -/
def AddImage (w h : ℚ) (imgId : Nat) (s : LayoutState) : LayoutState :=
  let s1 := StartNewLine false s
  let s2 := if s1.pageDy - s1.currY < h / 2 then StartNewPage s1 else s1
  let wh :=
    if w > s2.pageDx ∨ h > s2.pageDy - s2.currY then
      let factor := min (s2.pageDx / w) ((s2.pageDy - s2.currY) / h)
      (w * factor, h * factor)
    else (w, h)
  let s3 := { s2 with currX := s2.currX + (s2.pageDx - wh.1) / 2 }
  let s4 :=
    { s3 with
      currPage := s3.currPage ++ [DrawInstr.image imgId ⟨s3.currX, s3.currY, wh.1, wh.2⟩],
      currY := s3.currY + wh.2 }
  StartNewLine false s4

/-- `PageLayout::SetCurrentFont`: resolve the font for the new style
through the cache (the handle is determined by the style, since name and
size are fixed for the session). -/
def SetCurrentFont (fs : FontStyle) (s : LayoutState) : LayoutState :=
  { s with currFontStyle := fs, currFont := fs }

/-- `PageLayout::ChangeFont`: add or remove one style flag; if the
resulting bitmask differs from the current one, switch fonts and record
a `SetFont` instruction. -/
def ChangeFont (f : StyleFlag) (addStyle : Bool) (s : LayoutState) : LayoutState :=
  let newFontStyle := s.currFontStyle.set f addStyle
  if newFontStyle = s.currFontStyle then s
  else AddSetFontInstr newFontStyle (SetCurrentFont newFontStyle s)

/-- One processed unit of input, at the granularity at which
`PageLayout::Process` dispatches: a word token from `EmitText` (a
newline token is the word `"\n"`), a paragraph tag with its resolved
alignment, a horizontal rule, a style tag, a page-break tag, or an
image tag that resolved to an image of the given pixel dimensions. -/
inductive Op
  | word (t : String)
  | para (align : AlignAttr)
  | hr
  | styleTag (f : StyleFlag) (isStart : Bool)
  | pagebreak
  | image (w h : ℚ) (imgId : Nat)

/-- Dispatch of one token, following `HandleHtmlTag` / `EmitText`. -/
def applyOp (measure : FontStyle → String → ℚ × ℚ) (s : LayoutState) :
    Op → LayoutState
  | .word t => AddWord measure ⟨t⟩ s
  | .para j =>
      let s1 := StartNewLine true s
      { s1 with currJustification := j }
  | .hr => AddHr s
  | .styleTag f b => ChangeFont f b s
  | .pagebreak => StartNewPage (JustifyLine s.currJustification s)
  | .image w h imgId => AddImage w h imgId s

/-- Processing a token sequence. -/
def runOps (measure : FontStyle → String → ℚ × ℚ) (s : LayoutState)
    (ops : List Op) : LayoutState :=
  ops.foldl (applyOp measure) s

/-- The layout configuration (`LayoutInfo` plus the measurement results
`StartLayout` obtains from the font: the font's line height, and whether
`Process` will be given a page observer). -/
structure LayoutInfo where
  pageDx : ℚ
  pageDy : ℚ
  fontSize : ℚ
  fontHeight : ℚ
  hasObserver : Bool
  deriving DecidableEq, Repr

/-- `PageLayout::StartLayout`: set up the session constants, select the
regular font, and start the first page (the very first `StartNewPage`
finds no current page, so nothing is emitted; the fresh page records the
leading `SetFont`).  `spaceDx` is the heuristic `fontSize / 2.5`. -/
def StartLayout (li : LayoutInfo) : LayoutState :=
  { pageDx := li.pageDx, pageDy := li.pageDy,
    lineSpacing := li.fontHeight,
    spaceDx := li.fontSize / (5 / 2 : ℚ),
    hasObserver := li.hasObserver,
    currFontStyle := FontStyleRegular,
    currFont := FontStyleRegular,
    currJustification := AlignAttr.justify,
    currX := 0, currY := 0,
    newLinesCount := 0,
    currPage := [DrawInstr.setFont FontStyleRegular rect0],
    currLineInstrOffset := 1,
    pageStartFont := FontStyleRegular,
    pages := [] }

/-- `PageLayout::Process`: run the token stream, force the layout of the
last line (paragraph break), and emit the final page when it holds any
instruction. -/
def ProcessOps (measure : FontStyle → String → ℚ × ℚ) (li : LayoutInfo)
    (ops : List Op) : LayoutState :=
  let s := runOps measure (StartLayout li) ops
  let s1 := StartNewLine true s
  if 0 < s1.currPage.length then StartNewPage s1 else s1

/-! ### Word iterator (`WordsIter`) -/

/-- The C library `isspace` on the ASCII characters the iterator can
meet: space, tab, newline, vertical tab, form feed, carriage return. -/
def isspaceChar (c : Char) : Bool :=
  c = ' ' || c = '\t' || c = '\n' || c = '\x0b' || c = '\x0c' || c = '\r'

/-- A token produced by `WordsIter::Next`: either the normalized newline
token, or a word given by its start offset and length in the input. -/
inductive WordTok
  | newline
  | word (start len : Nat)
  deriving DecidableEq, Repr

/-- `while (curr < end && *curr == ' ') curr++;` — the number of leading
plain spaces of the remaining input. -/
def skipSpacesFrom : List Char → Nat
  | [] => 0
  | c :: rest => if c = ' ' then 1 + skipSpacesFrom rest else 0

/-- `while (curr < end && !isspace(*curr)) curr++;` — the length of the
leading run of non-`isspace` characters. -/
def skipNonWsFrom : List Char → Nat
  | [] => 0
  | c :: rest => if isspaceChar c then 0 else 1 + skipNonWsFrom rest

/-- `IsNewlineSkip`: consume one `"\r"`, `"\n"` or `"\r\n"` at position
`p`, returning the new position (equal to `p` when nothing matched). -/
def newlineSkip (l : List Char) (p : Nat) : Nat :=
  let p1 := if l.get? p = some '\r' then p + 1 else p
  if l.get? p1 = some '\n' then p1 + 1 else p1

/-- `WordsIter::Next` at position `curr` of input `l`: skip plain
spaces; at end of input return `none` (the NULL sentinel); otherwise
return the normalized newline token, or the word starting here (its
length is the distance the non-whitespace scan advances — the source
asserts it is positive), together with the advanced position. -/
def wordsIterNext (l : List Char) (curr : Nat) : Option (WordTok × Nat) :=
  let c1 := curr + skipSpacesFrom (l.drop curr)
  if c1 ≥ l.length then none
  else
    let c2 := newlineSkip l c1
    if c2 ≠ c1 then some (WordTok.newline, c2)
    else
      let c3 := c1 + skipNonWsFrom (l.drop c1)
      some (WordTok.word c1 (c3 - c1), c3)

/-! ### Font cache (`FontCache`) -/

/-- A font descriptor: the cache's uniqueness key. -/
structure FontDesc where
  name : String
  size : ℚ
  style : FontStyle
  deriving DecidableEq, Repr

/-- An abstract font handle as the layout engine sees it: the descriptor
it was constructed from together with whether construction succeeded
(GDI+ `new Font` always yields an object; a bad name leaves it in an
unusable error state). -/
structure FontHandle where
  desc : FontDesc
  valid : Bool
  deriving DecidableEq, Repr

/-- One cache entry (`FontCache::Entry`). -/
structure FontCacheEntry where
  name : String
  size : ℚ
  style : FontStyle
  font : FontHandle
  deriving DecidableEq, Repr

/-- `FontCache::GetFont`: return the entry with an identical
(name, size, style) triple if one exists; otherwise construct a font via
the external constructor, append it, and return it — with no check of
whether construction succeeded (the fallback is a TODO in the source). -/
def FontCacheGetFont (construct : FontDesc → FontHandle)
    (cache : List FontCacheEntry) (name : String) (size : ℚ)
    (style : FontStyle) : FontHandle × List FontCacheEntry :=
  match cache.find? (fun e => e.name == name && e.size == size && e.style == style) with
  | some e => (e.font, cache)
  | none =>
      let f := construct ⟨name, size, style⟩
      (f, cache ++ [⟨name, size, style, f⟩])

/-! ### Observables used by the claims -/

/-- All instructions produced so far, in order: the emitted pages
followed by the current page. -/
def allInstrs (s : LayoutState) : List DrawInstr :=
  s.pages.flatten ++ s.currPage

/-- The rule instructions of a list, in order. -/
def linesOf (l : List DrawInstr) : List DrawInstr := l.filter DrawInstr.isLine

/-- The image instructions of a list, in order. -/
def imagesOf (l : List DrawInstr) : List DrawInstr := l.filter DrawInstr.isImage

/-- The left edges (`bbox.X`) of the text instructions of a list. -/
def strXsL (l : List DrawInstr) : List ℚ :=
  l.filterMap fun i =>
    match i with
    | .str _ bb => some bb.X
    | _ => none

/-- The right edges (`bbox.X + bbox.Width`) of the text instructions. -/
def strRightsL (l : List DrawInstr) : List ℚ :=
  l.filterMap fun i =>
    match i with
    | .str _ bb => some (bb.X + bb.Width)
    | _ => none

/-- The widths of the text instructions of a list. -/
def strWidthsL (l : List DrawInstr) : List ℚ :=
  l.filterMap fun i =>
    match i with
    | .str _ bb => some bb.Width
    | _ => none

/-- The left edges of the words of the current line. -/
def strXs (s : LayoutState) : List ℚ := strXsL (lineInstrs s)

/-- A page whose instruction sequence begins with a `SetFont`. -/
def StartsWithSetFont (p : List DrawInstr) : Prop :=
  ∃ f bb, p.head? = some (DrawInstr.setFont f bb)

/-- The layout-state invariant: the current page starts with the
`SetFont` recorded when it was started, every emitted page starts with a
`SetFont`, and the line-start offset is at least 1 (the leading
`SetFont` is never part of a line) and at most the page length. -/
def StateInv (s : LayoutState) : Prop :=
  s.currPage.head? = some (DrawInstr.setFont s.pageStartFont rect0) ∧
  (∀ p ∈ s.pages, StartsWithSetFont p) ∧
  1 ≤ s.currLineInstrOffset ∧
  s.currLineInstrOffset ≤ s.currPage.length


/-! ### Structural lemmas about the line-layout loops -/

theorem layoutLine_length (sp y : ℚ) (x : ℚ) (l : List DrawInstr) :
    (layoutLine sp y x l).length = l.length := by
  induction l generalizing x with
  | nil => rfl
  | cons i rest ih => cases i <;> simp [layoutLine, ih]

theorem shiftInstrs_length (e : ℚ) (n : Nat) (l : List DrawInstr) :
    (shiftInstrs e n l).length = l.length := by
  induction l generalizing n with
  | nil => rfl
  | cons i rest ih => simp [shiftInstrs, ih]

theorem head?_take_append {α : Type} (l r : List α) (k : Nat) (hk : 1 ≤ k) :
    l ≠ [] → (l.take k ++ r).head? = l.head? := by
  intro hl
  cases l with
  | nil => exact absurd rfl hl
  | cons a l' =>
    cases k with
    | zero => omega
    | succ k => simp [List.take_succ_cons]

theorem linesOf_append (a b : List DrawInstr) :
    linesOf (a ++ b) = linesOf a ++ linesOf b := by
  simp [linesOf]

theorem imagesOf_append (a b : List DrawInstr) :
    imagesOf (a ++ b) = imagesOf a ++ imagesOf b := by
  simp [imagesOf]

theorem linesOf_layoutLine (sp y : ℚ) (x : ℚ) (l : List DrawInstr) :
    linesOf (layoutLine sp y x l) = linesOf l := by
  induction l generalizing x with
  | nil => rfl
  | cons i rest ih =>
    cases i <;> simp [layoutLine, linesOf, List.filter, DrawInstr.isLine] <;>
      simpa [linesOf] using ih _

theorem imagesOf_layoutLine (sp y : ℚ) (x : ℚ) (l : List DrawInstr) :
    imagesOf (layoutLine sp y x l) = imagesOf l := by
  induction l generalizing x with
  | nil => rfl
  | cons i rest ih =>
    cases i <;> simp [layoutLine, imagesOf, List.filter, DrawInstr.isImage] <;>
      simpa [imagesOf] using ih _

/-- `LayoutLeftStartingAt` preserves the page length. -/
theorem LayoutLeftStartingAt_length (offX : ℚ) (s : LayoutState) :
    (LayoutLeftStartingAt offX s).currPage.length = s.currPage.length := by
  simp [LayoutLeftStartingAt, layoutLine_length, lineInstrs, List.length_take]
  omega

/-- `LayoutLeftStartingAt` preserves the page head when the line range
does not include it. -/
theorem LayoutLeftStartingAt_head (offX : ℚ) (s : LayoutState)
    (hk : 1 ≤ s.currLineInstrOffset) :
    (LayoutLeftStartingAt offX s).currPage.head? = s.currPage.head? := by
  rw [show (LayoutLeftStartingAt offX s).currPage =
      s.currPage.take s.currLineInstrOffset ++
        layoutLine s.spaceDx s.currY offX (lineInstrs s) from rfl]
  rcases hp : s.currPage with _ | ⟨a, l'⟩
  · simp [lineInstrs, hp, layoutLine]
  · exact head?_take_append (a :: l') _ _ hk (by simp)

/-- `LayoutLeftStartingAt` preserves the rule and image instructions. -/
theorem LayoutLeftStartingAt_filters (offX : ℚ) (s : LayoutState) :
    linesOf (LayoutLeftStartingAt offX s).currPage = linesOf s.currPage ∧
    imagesOf (LayoutLeftStartingAt offX s).currPage = imagesOf s.currPage := by
  constructor
  · rw [show (LayoutLeftStartingAt offX s).currPage =
        s.currPage.take s.currLineInstrOffset ++
          layoutLine s.spaceDx s.currY offX (lineInstrs s) from rfl,
      linesOf_append, linesOf_layoutLine, ← linesOf_append, lineInstrs,
      List.take_append_drop]
  · rw [show (LayoutLeftStartingAt offX s).currPage =
        s.currPage.take s.currLineInstrOffset ++
          layoutLine s.spaceDx s.currY offX (lineInstrs s) from rfl,
      imagesOf_append, imagesOf_layoutLine, ← imagesOf_append, lineInstrs,
      List.take_append_drop]

/-- Characterisation of `JustifyLineBoth`: it rewrites the current page
(preserving its length and, when the line range does not include the
head, the head) and updates `currX`; every other field is untouched. -/
theorem JustifyLineBoth_spec (s : LayoutState) :
    ∃ pg : List DrawInstr, ∃ x : ℚ,
      JustifyLineBoth s = { s with currPage := pg, currX := x } ∧
      pg.length = s.currPage.length ∧
      (1 ≤ s.currLineInstrOffset → pg.head? = s.currPage.head?) := by
  refine ⟨_, _, rfl, ?_, ?_⟩
  · have h1 := LayoutLeftStartingAt_length 0 s
    rcases hl : lineInstrs (LayoutLeftStartingAt 0 s) with _ | ⟨first, rest⟩ <;>
    · have hlen := congrArg List.length hl
      simp only [lineInstrs] at hlen
      simp only [List.length_drop] at hlen
      simp [List.length_take, shiftInstrs_length, lineInstrs, hl, h1] at *
      omega
  · intro hk
    have h2 := LayoutLeftStartingAt_head 0 s hk
    have h1 := LayoutLeftStartingAt_length 0 s
    rcases hp1 : (LayoutLeftStartingAt 0 s).currPage with _ | ⟨a, l'⟩
    · rw [hp1] at h2
      rw [← h2]
      simp [lineInstrs, hp1]
    · rw [← h2, hp1]
      exact head?_take_append (a :: l') _ _ hk (by simp)

/-- Characterisation of `JustifyLine`: it only rewrites the current page
(preserving its length and, when the line range does not include the
head, the head), sets the line-start offset to the page end, updates
`currX`, and — except under full justification — keeps every rule and
image instruction of the page intact; every other field is untouched. -/
theorem JustifyLine_spec (mode : AlignAttr) (s : LayoutState) :
    ∃ pg : List DrawInstr, ∃ x : ℚ,
      JustifyLine mode s =
        { s with currPage := pg, currX := x, currLineInstrOffset := pg.length } ∧
      pg.length = s.currPage.length ∧
      (1 ≤ s.currLineInstrOffset → pg.head? = s.currPage.head?) ∧
      (mode ≠ AlignAttr.justify →
        linesOf pg = linesOf s.currPage ∧ imagesOf pg = imagesOf s.currPage) := by
  by_cases hemp : IsCurrentLineEmpty s
  · refine ⟨s.currPage, s.currX, ?_, rfl, fun _ => rfl, fun _ => ⟨rfl, rfl⟩⟩
    have hoff : s.currLineInstrOffset = s.currPage.length := by
      simpa [IsCurrentLineEmpty] using hemp
    rw [JustifyLine.eq_def, if_pos hemp, ← hoff]
  · cases mode with
    | left =>
      refine ⟨(LayoutLeftStartingAt 0 s).currPage, (LayoutLeftStartingAt 0 s).currX,
        ?_, LayoutLeftStartingAt_length 0 s, fun hk => LayoutLeftStartingAt_head 0 s hk,
        fun _ => LayoutLeftStartingAt_filters 0 s⟩
      rw [JustifyLine.eq_def, if_neg hemp]
      rfl
    | right =>
      refine ⟨(LayoutLeftStartingAt (s.pageDx - GetCurrentLineDx s) s).currPage,
        (LayoutLeftStartingAt (s.pageDx - GetCurrentLineDx s) s).currX,
        ?_, LayoutLeftStartingAt_length _ s, fun hk => LayoutLeftStartingAt_head _ s hk,
        fun _ => LayoutLeftStartingAt_filters _ s⟩
      rw [JustifyLine.eq_def, if_neg hemp]
      rfl
    | center =>
      refine ⟨(LayoutLeftStartingAt ((s.pageDx - GetCurrentLineDx s) / 2) s).currPage,
        (LayoutLeftStartingAt ((s.pageDx - GetCurrentLineDx s) / 2) s).currX,
        ?_, LayoutLeftStartingAt_length _ s, fun hk => LayoutLeftStartingAt_head _ s hk,
        fun _ => LayoutLeftStartingAt_filters _ s⟩
      rw [JustifyLine.eq_def, if_neg hemp]
      rfl
    | justify =>
      obtain ⟨pg, x, heq, hlen, hhead⟩ := JustifyLineBoth_spec s
      refine ⟨pg, x, ?_, hlen, hhead, fun hmode => absurd rfl hmode⟩
      rw [JustifyLine.eq_def, if_neg hemp, heq]

/-! ### Field-preservation lemmas -/

@[simp] theorem JustifyLine_pageDx (m : AlignAttr) (s : LayoutState) :
    (JustifyLine m s).pageDx = s.pageDx := by
  obtain ⟨pg, x, heq, -⟩ := JustifyLine_spec m s
  rw [heq]

@[simp] theorem JustifyLine_pageDy (m : AlignAttr) (s : LayoutState) :
    (JustifyLine m s).pageDy = s.pageDy := by
  obtain ⟨pg, x, heq, -⟩ := JustifyLine_spec m s
  rw [heq]

@[simp] theorem JustifyLine_lineSpacing (m : AlignAttr) (s : LayoutState) :
    (JustifyLine m s).lineSpacing = s.lineSpacing := by
  obtain ⟨pg, x, heq, -⟩ := JustifyLine_spec m s
  rw [heq]

@[simp] theorem JustifyLine_spaceDx (m : AlignAttr) (s : LayoutState) :
    (JustifyLine m s).spaceDx = s.spaceDx := by
  obtain ⟨pg, x, heq, -⟩ := JustifyLine_spec m s
  rw [heq]

@[simp] theorem JustifyLine_hasObserver (m : AlignAttr) (s : LayoutState) :
    (JustifyLine m s).hasObserver = s.hasObserver := by
  obtain ⟨pg, x, heq, -⟩ := JustifyLine_spec m s
  rw [heq]

@[simp] theorem JustifyLine_currFontStyle (m : AlignAttr) (s : LayoutState) :
    (JustifyLine m s).currFontStyle = s.currFontStyle := by
  obtain ⟨pg, x, heq, -⟩ := JustifyLine_spec m s
  rw [heq]

@[simp] theorem JustifyLine_currFont (m : AlignAttr) (s : LayoutState) :
    (JustifyLine m s).currFont = s.currFont := by
  obtain ⟨pg, x, heq, -⟩ := JustifyLine_spec m s
  rw [heq]

@[simp] theorem JustifyLine_currJustification (m : AlignAttr) (s : LayoutState) :
    (JustifyLine m s).currJustification = s.currJustification := by
  obtain ⟨pg, x, heq, -⟩ := JustifyLine_spec m s
  rw [heq]

@[simp] theorem JustifyLine_currY (m : AlignAttr) (s : LayoutState) :
    (JustifyLine m s).currY = s.currY := by
  obtain ⟨pg, x, heq, -⟩ := JustifyLine_spec m s
  rw [heq]

@[simp] theorem JustifyLine_newLinesCount (m : AlignAttr) (s : LayoutState) :
    (JustifyLine m s).newLinesCount = s.newLinesCount := by
  obtain ⟨pg, x, heq, -⟩ := JustifyLine_spec m s
  rw [heq]

@[simp] theorem JustifyLine_pageStartFont (m : AlignAttr) (s : LayoutState) :
    (JustifyLine m s).pageStartFont = s.pageStartFont := by
  obtain ⟨pg, x, heq, -⟩ := JustifyLine_spec m s
  rw [heq]

@[simp] theorem JustifyLine_pages (m : AlignAttr) (s : LayoutState) :
    (JustifyLine m s).pages = s.pages := by
  obtain ⟨pg, x, heq, -⟩ := JustifyLine_spec m s
  rw [heq]

@[simp] theorem JustifyLine_length (m : AlignAttr) (s : LayoutState) :
    (JustifyLine m s).currPage.length = s.currPage.length := by
  obtain ⟨pg, x, heq, hlen, -⟩ := JustifyLine_spec m s
  rw [heq]
  exact hlen

theorem JustifyLine_offset (m : AlignAttr) (s : LayoutState) :
    (JustifyLine m s).currLineInstrOffset = (JustifyLine m s).currPage.length := by
  obtain ⟨pg, x, heq, -⟩ := JustifyLine_spec m s
  rw [heq]

theorem JustifyLine_head (m : AlignAttr) (s : LayoutState)
    (hk : 1 ≤ s.currLineInstrOffset) :
    (JustifyLine m s).currPage.head? = s.currPage.head? := by
  obtain ⟨pg, x, heq, hlen, hhead, -⟩ := JustifyLine_spec m s
  rw [heq]
  exact hhead hk

@[simp] theorem StartNewPage_pageDx (s : LayoutState) :
    (StartNewPage s).pageDx = s.pageDx := rfl

@[simp] theorem StartNewPage_pageDy (s : LayoutState) :
    (StartNewPage s).pageDy = s.pageDy := rfl

@[simp] theorem StartNewPage_lineSpacing (s : LayoutState) :
    (StartNewPage s).lineSpacing = s.lineSpacing := rfl

@[simp] theorem StartNewPage_spaceDx (s : LayoutState) :
    (StartNewPage s).spaceDx = s.spaceDx := rfl

@[simp] theorem StartNewPage_hasObserver (s : LayoutState) :
    (StartNewPage s).hasObserver = s.hasObserver := rfl

@[simp] theorem StartNewPage_currFontStyle (s : LayoutState) :
    (StartNewPage s).currFontStyle = s.currFontStyle := rfl

@[simp] theorem StartNewPage_currFont (s : LayoutState) :
    (StartNewPage s).currFont = s.currFont := rfl

@[simp] theorem StartNewPage_currJustification (s : LayoutState) :
    (StartNewPage s).currJustification = s.currJustification := rfl

@[simp] theorem StartNewPage_currX (s : LayoutState) :
    (StartNewPage s).currX = 0 := rfl

@[simp] theorem StartNewPage_currY (s : LayoutState) :
    (StartNewPage s).currY = 0 := rfl

@[simp] theorem StartNewPage_newLinesCount (s : LayoutState) :
    (StartNewPage s).newLinesCount = 0 := rfl

@[simp] theorem StartNewPage_currPage (s : LayoutState) :
    (StartNewPage s).currPage = [DrawInstr.setFont s.currFont rect0] := rfl

@[simp] theorem StartNewPage_offset (s : LayoutState) :
    (StartNewPage s).currLineInstrOffset = 1 := rfl

@[simp] theorem StartNewPage_pageStartFont (s : LayoutState) :
    (StartNewPage s).pageStartFont = s.currFont := rfl

@[simp] theorem StartNewPage_pages (s : LayoutState) :
    (StartNewPage s).pages =
      if s.hasObserver then s.pages ++ [s.currPage] else s.pages := rfl

@[simp] theorem lineBreakJustify_pageDx (b : Bool) (s : LayoutState) :
    (lineBreakJustify b s).pageDx = s.pageDx := by
  unfold lineBreakJustify
  split <;> simp

@[simp] theorem lineBreakJustify_pageDy (b : Bool) (s : LayoutState) :
    (lineBreakJustify b s).pageDy = s.pageDy := by
  unfold lineBreakJustify
  split <;> simp

@[simp] theorem lineBreakJustify_lineSpacing (b : Bool) (s : LayoutState) :
    (lineBreakJustify b s).lineSpacing = s.lineSpacing := by
  unfold lineBreakJustify
  split <;> simp

@[simp] theorem lineBreakJustify_spaceDx (b : Bool) (s : LayoutState) :
    (lineBreakJustify b s).spaceDx = s.spaceDx := by
  unfold lineBreakJustify
  split <;> simp

@[simp] theorem lineBreakJustify_hasObserver (b : Bool) (s : LayoutState) :
    (lineBreakJustify b s).hasObserver = s.hasObserver := by
  unfold lineBreakJustify
  split <;> simp

@[simp] theorem lineBreakJustify_currFontStyle (b : Bool) (s : LayoutState) :
    (lineBreakJustify b s).currFontStyle = s.currFontStyle := by
  unfold lineBreakJustify
  split <;> simp

@[simp] theorem lineBreakJustify_currFont (b : Bool) (s : LayoutState) :
    (lineBreakJustify b s).currFont = s.currFont := by
  unfold lineBreakJustify
  split <;> simp

@[simp] theorem lineBreakJustify_currJustification (b : Bool) (s : LayoutState) :
    (lineBreakJustify b s).currJustification = s.currJustification := by
  unfold lineBreakJustify
  split <;> simp

@[simp] theorem lineBreakJustify_currY (b : Bool) (s : LayoutState) :
    (lineBreakJustify b s).currY = s.currY := by
  unfold lineBreakJustify
  split <;> simp

@[simp] theorem lineBreakJustify_newLinesCount (b : Bool) (s : LayoutState) :
    (lineBreakJustify b s).newLinesCount = s.newLinesCount := by
  unfold lineBreakJustify
  split <;> simp

@[simp] theorem lineBreakJustify_pageStartFont (b : Bool) (s : LayoutState) :
    (lineBreakJustify b s).pageStartFont = s.pageStartFont := by
  unfold lineBreakJustify
  split <;> simp

@[simp] theorem lineBreakJustify_pages (b : Bool) (s : LayoutState) :
    (lineBreakJustify b s).pages = s.pages := by
  unfold lineBreakJustify
  split <;> simp

@[simp] theorem lineBreakJustify_length (b : Bool) (s : LayoutState) :
    (lineBreakJustify b s).currPage.length = s.currPage.length := by
  unfold lineBreakJustify
  split <;> simp

theorem lineBreakJustify_offset (b : Bool) (s : LayoutState) :
    (lineBreakJustify b s).currLineInstrOffset =
      (lineBreakJustify b s).currPage.length := by
  unfold lineBreakJustify
  split <;> exact JustifyLine_offset _ _

theorem lineBreakJustify_head (b : Bool) (s : LayoutState)
    (hk : 1 ≤ s.currLineInstrOffset) :
    (lineBreakJustify b s).currPage.head? = s.currPage.head? := by
  unfold lineBreakJustify
  split <;> exact JustifyLine_head _ _ hk

@[simp] theorem StartNewLine_pageDx (b : Bool) (s : LayoutState) :
    (StartNewLine b s).pageDx = s.pageDx := by
  unfold StartNewLine
  split
  · rfl
  · dsimp only
    split <;> simp

@[simp] theorem StartNewLine_pageDy (b : Bool) (s : LayoutState) :
    (StartNewLine b s).pageDy = s.pageDy := by
  unfold StartNewLine
  split
  · rfl
  · dsimp only
    split <;> simp

@[simp] theorem StartNewLine_lineSpacing (b : Bool) (s : LayoutState) :
    (StartNewLine b s).lineSpacing = s.lineSpacing := by
  unfold StartNewLine
  split
  · rfl
  · dsimp only
    split <;> simp

@[simp] theorem StartNewLine_spaceDx (b : Bool) (s : LayoutState) :
    (StartNewLine b s).spaceDx = s.spaceDx := by
  unfold StartNewLine
  split
  · rfl
  · dsimp only
    split <;> simp

@[simp] theorem StartNewLine_hasObserver (b : Bool) (s : LayoutState) :
    (StartNewLine b s).hasObserver = s.hasObserver := by
  unfold StartNewLine
  split
  · rfl
  · dsimp only
    split <;> simp

@[simp] theorem StartNewLine_currFontStyle (b : Bool) (s : LayoutState) :
    (StartNewLine b s).currFontStyle = s.currFontStyle := by
  unfold StartNewLine
  split
  · rfl
  · dsimp only
    split <;> simp

@[simp] theorem StartNewLine_currFont (b : Bool) (s : LayoutState) :
    (StartNewLine b s).currFont = s.currFont := by
  unfold StartNewLine
  split
  · rfl
  · dsimp only
    split <;> simp

@[simp] theorem StartNewLine_currJustification (b : Bool) (s : LayoutState) :
    (StartNewLine b s).currJustification = s.currJustification := by
  unfold StartNewLine
  split
  · rfl
  · dsimp only
    split <;> simp

/-- After `StartNewLine` the line-start offset always marks the end of
the current page (in the early-return case this holds because the
return condition includes line emptiness). -/
theorem StartNewLine_offset (b : Bool) (s : LayoutState) :
    (StartNewLine b s).currLineInstrOffset = (StartNewLine b s).currPage.length := by
  unfold StartNewLine
  split
  · next hcond =>
    simpa [IsCurrentLineEmpty] using hcond.2
  · dsimp only
    split <;> simp

/-- `StartNewLine` either leaves the state untouched (early return at
the top of a page) or ends with an empty current line and the cursor at
the left edge. -/
theorem StartNewLine_empty_or_id (b : Bool) (s : LayoutState) :
    (IsCurrentLineEmpty (StartNewLine b s) = true ∧ (StartNewLine b s).currX = 0) ∨
      (StartNewLine b s = s ∧ IsCurrentLineEmpty s = true) := by
  unfold StartNewLine
  split
  · next hcond => exact Or.inr ⟨rfl, hcond.2⟩
  · left
    dsimp only
    constructor
    · rw [IsCurrentLineEmpty]
      split <;> simp
    · split <;> simp

/-! ### Preservation of the layout-state invariant -/

/-- Appending one instruction at the end of the current page (with
arbitrary changes to cursor or font fields that the invariant does not
mention) preserves the invariant. -/
theorem stateInv_append (s t : LayoutState) (i : DrawInstr)
    (hpage : t.currPage = s.currPage ++ [i])
    (hoff : t.currLineInstrOffset = s.currLineInstrOffset)
    (hfont : t.pageStartFont = s.pageStartFont)
    (hpages : t.pages = s.pages) (h : StateInv s) : StateInv t := by
  obtain ⟨h1, h2, h3, h4⟩ := h
  refine ⟨?_, by rw [hpages]; exact h2, by rw [hoff]; exact h3, ?_⟩
  · rw [hpage, hfont]
    rcases hp : s.currPage with _ | ⟨a, l⟩
    · rw [hp] at h1
      simp at h1
    · rw [hp] at h1
      simpa using h1
  · rw [hpage, hoff]
    simp
    omega

theorem stateInv_JustifyLine (m : AlignAttr) (s : LayoutState) (h : StateInv s) :
    StateInv (JustifyLine m s) := by
  obtain ⟨h1, h2, h3, h4⟩ := h
  refine ⟨?_, by simpa using h2, ?_, ?_⟩
  · rw [JustifyLine_head m s h3]
    simpa using h1
  · rw [JustifyLine_offset, JustifyLine_length]
    omega
  · rw [JustifyLine_offset]

theorem stateInv_StartNewPage (s : LayoutState) (h : StateInv s) :
    StateInv (StartNewPage s) := by
  obtain ⟨h1, h2, h3, h4⟩ := h
  refine ⟨rfl, ?_, le_refl 1, by simp⟩
  intro p hp
  rw [StartNewPage_pages] at hp
  by_cases hobs : s.hasObserver
  · rw [if_pos hobs] at hp
    rcases List.mem_append.1 hp with hmem | hmem
    · exact h2 p hmem
    · have : p = s.currPage := by simpa using hmem
      exact ⟨s.pageStartFont, rect0, this ▸ h1⟩
  · rw [if_neg hobs] at hp
    exact h2 p hp

theorem stateInv_lineBreakJustify (b : Bool) (s : LayoutState) (h : StateInv s) :
    StateInv (lineBreakJustify b s) := by
  unfold lineBreakJustify
  split <;> exact stateInv_JustifyLine _ _ h

theorem stateInv_StartNewLine (b : Bool) (s : LayoutState) (h : StateInv s) :
    StateInv (StartNewLine b s) := by
  unfold StartNewLine
  split
  · exact h
  · dsimp only
    have hinv2 : StateInv
        { lineBreakJustify b s with
          currX := 0,
          currY := (lineBreakJustify b s).currY + (lineBreakJustify b s).lineSpacing,
          currLineInstrOffset := (lineBreakJustify b s).currPage.length } := by
      obtain ⟨h1, h2, h3, h4⟩ := h
      refine ⟨?_, ?_, ?_, le_refl _⟩
      · show (lineBreakJustify b s).currPage.head? =
          some (DrawInstr.setFont (lineBreakJustify b s).pageStartFont rect0)
        rw [lineBreakJustify_head b s h3]
        simpa using h1
      · show ∀ p ∈ (lineBreakJustify b s).pages, StartsWithSetFont p
        simpa using h2
      · show 1 ≤ (lineBreakJustify b s).currPage.length
        rw [lineBreakJustify_length]
        omega
    split
    · exact stateInv_StartNewPage _ hinv2
    · exact hinv2

theorem stateInv_newLinesCount (s : LayoutState) (n : Nat) (h : StateInv s) :
    StateInv { s with newLinesCount := n } :=
  ⟨h.1, h.2.1, h.2.2.1, h.2.2.2⟩

theorem stateInv_AddWord (measure : FontStyle → String → ℚ × ℚ) (wi : WordInfo)
    (s : LayoutState) (h : StateInv s) : StateInv (AddWord measure wi s) := by
  unfold AddWord
  split
  · dsimp only
    have h1 := stateInv_newLinesCount s (s.newLinesCount + 1) h
    split
    · split
      · exact stateInv_StartNewLine _ _ (stateInv_StartNewLine _ _ h1)
      · exact stateInv_StartNewLine _ _ h1
    · exact h1
  · dsimp only
    have h1 := stateInv_newLinesCount s 0 h
    split
    · exact stateInv_append _ _ _ rfl rfl rfl rfl
        (stateInv_StartNewLine false { s with newLinesCount := 0 } h1)
    · exact stateInv_append _ _ _ rfl rfl rfl rfl h1

theorem stateInv_AddHr (s : LayoutState) (h : StateInv s) : StateInv (AddHr s) := by
  unfold AddHr
  dsimp only
  apply stateInv_StartNewLine
  have hx : StateInv { StartNewLine true s with currX := 0 } := by
    have := stateInv_StartNewLine true s h
    exact ⟨this.1, this.2.1, this.2.2.1, this.2.2.2⟩
  split
  · exact stateInv_append _ _ _ rfl rfl rfl rfl (stateInv_StartNewPage _ hx)
  · exact stateInv_append _ _ _ rfl rfl rfl rfl hx

theorem stateInv_AddImage (w h : ℚ) (imgId : Nat) (s : LayoutState)
    (hinv : StateInv s) : StateInv (AddImage w h imgId s) := by
  unfold AddImage
  dsimp only
  apply stateInv_StartNewLine
  have h1 := stateInv_StartNewLine false s hinv
  split
  · have h2 := stateInv_StartNewPage _ h1
    have h3 : StateInv
        { StartNewPage (StartNewLine false s) with
          currX := (StartNewPage (StartNewLine false s)).currX +
            ((StartNewPage (StartNewLine false s)).pageDx -
              (if w > (StartNewPage (StartNewLine false s)).pageDx ∨
                  h > (StartNewPage (StartNewLine false s)).pageDy -
                    (StartNewPage (StartNewLine false s)).currY then
                (w * min ((StartNewPage (StartNewLine false s)).pageDx / w)
                  (((StartNewPage (StartNewLine false s)).pageDy -
                    (StartNewPage (StartNewLine false s)).currY) / h),
                 h * min ((StartNewPage (StartNewLine false s)).pageDx / w)
                  (((StartNewPage (StartNewLine false s)).pageDy -
                    (StartNewPage (StartNewLine false s)).currY) / h))
               else (w, h)).1) / 2 } :=
      ⟨h2.1, h2.2.1, h2.2.2.1, h2.2.2.2⟩
    exact stateInv_append _ _ _ rfl rfl rfl rfl h3
  · have h3 : StateInv
        { StartNewLine false s with
          currX := (StartNewLine false s).currX +
            ((StartNewLine false s).pageDx -
              (if w > (StartNewLine false s).pageDx ∨
                  h > (StartNewLine false s).pageDy - (StartNewLine false s).currY then
                (w * min ((StartNewLine false s).pageDx / w)
                  (((StartNewLine false s).pageDy - (StartNewLine false s).currY) / h),
                 h * min ((StartNewLine false s).pageDx / w)
                  (((StartNewLine false s).pageDy - (StartNewLine false s).currY) / h))
               else (w, h)).1) / 2 } :=
      ⟨h1.1, h1.2.1, h1.2.2.1, h1.2.2.2⟩
    exact stateInv_append _ _ _ rfl rfl rfl rfl h3

theorem stateInv_ChangeFont (f : StyleFlag) (b : Bool) (s : LayoutState)
    (h : StateInv s) : StateInv (ChangeFont f b s) := by
  unfold ChangeFont
  dsimp only
  split
  · exact h
  · exact stateInv_append _ _ _ rfl rfl rfl rfl ⟨h.1, h.2.1, h.2.2.1, h.2.2.2⟩

theorem stateInv_applyOp (measure : FontStyle → String → ℚ × ℚ) (s : LayoutState)
    (op : Op) (h : StateInv s) : StateInv (applyOp measure s op) := by
  cases op with
  | word t => exact stateInv_AddWord measure ⟨t⟩ s h
  | para j =>
      have := stateInv_StartNewLine true s h
      exact ⟨this.1, this.2.1, this.2.2.1, this.2.2.2⟩
  | hr => exact stateInv_AddHr s h
  | styleTag f b => exact stateInv_ChangeFont f b s h
  | pagebreak => exact stateInv_StartNewPage _ (stateInv_JustifyLine _ _ h)
  | image w h2 imgId => exact stateInv_AddImage w h2 imgId s h

theorem stateInv_runOps (measure : FontStyle → String → ℚ × ℚ) (s : LayoutState)
    (ops : List Op) (h : StateInv s) : StateInv (runOps measure s ops) := by
  induction ops generalizing s with
  | nil => exact h
  | cons op rest ih => exact ih _ (stateInv_applyOp measure s op h)

theorem stateInv_StartLayout (li : LayoutInfo) : StateInv (StartLayout li) :=
  ⟨rfl, by simp [StartLayout], le_refl 1, by simp [StartLayout]⟩

@[simp] theorem AddWord_hasObserver (measure : FontStyle → String → ℚ × ℚ)
    (wi : WordInfo) (s : LayoutState) :
    (AddWord measure wi s).hasObserver = s.hasObserver := by
  unfold AddWord
  split
  · dsimp only
    split
    · split <;> simp
    · rfl
  · dsimp only
    split <;> simp

@[simp] theorem AddHr_hasObserver (s : LayoutState) :
    (AddHr s).hasObserver = s.hasObserver := by
  unfold AddHr
  dsimp only
  split <;> simp

@[simp] theorem AddImage_hasObserver (w h : ℚ) (imgId : Nat) (s : LayoutState) :
    (AddImage w h imgId s).hasObserver = s.hasObserver := by
  unfold AddImage
  dsimp only
  split <;> simp

@[simp] theorem ChangeFont_hasObserver (f : StyleFlag) (b : Bool) (s : LayoutState) :
    (ChangeFont f b s).hasObserver = s.hasObserver := by
  unfold ChangeFont
  dsimp only
  split <;> rfl

@[simp] theorem applyOp_hasObserver (measure : FontStyle → String → ℚ × ℚ)
    (s : LayoutState) (op : Op) :
    (applyOp measure s op).hasObserver = s.hasObserver := by
  cases op <;> simp [applyOp]

theorem runOps_hasObserver (measure : FontStyle → String → ℚ × ℚ)
    (s : LayoutState) (ops : List Op) :
    (runOps measure s ops).hasObserver = s.hasObserver := by
  induction ops generalizing s with
  | nil => rfl
  | cons op rest ih => rw [runOps, List.foldl_cons, ← runOps, ih, applyOp_hasObserver]

theorem startsWithSetFont_length {p : List DrawInstr} (h : StartsWithSetFont p) :
    1 ≤ p.length := by
  obtain ⟨f, bb, hh⟩ := h
  cases p with
  | nil => simp at hh
  | cons a l => simp

theorem stateInv_ProcessOps (measure : FontStyle → String → ℚ × ℚ)
    (li : LayoutInfo) (ops : List Op) : StateInv (ProcessOps measure li ops) := by
  unfold ProcessOps
  dsimp only
  split
  · exact stateInv_StartNewPage _
      (stateInv_StartNewLine _ _ (stateInv_runOps _ _ _ (stateInv_StartLayout li)))
  · exact stateInv_StartNewLine _ _ (stateInv_runOps _ _ _ (stateInv_StartLayout li))

/-! ### Claim theorems -/

/-- C2: every page the engine creates — the current page at any point of
any run, and every page handed to the page consumer, including by the
final flush of `Process` — has an instruction sequence that begins with
a `SetFont` instruction, and the current page's leading `SetFont`
records the font that was active at the moment the page started. -/
theorem C2_pages_begin_with_setfont (li : LayoutInfo)
    (measure : FontStyle → String → ℚ × ℚ) (ops : List Op) :
    ((runOps measure (StartLayout li) ops).currPage.head? =
      some (DrawInstr.setFont (runOps measure (StartLayout li) ops).pageStartFont rect0)) ∧
    (∀ p ∈ (runOps measure (StartLayout li) ops).pages, StartsWithSetFont p) ∧
    (∀ p ∈ (ProcessOps measure li ops).pages, StartsWithSetFont p) := by
  have h1 := stateInv_runOps measure (StartLayout li) ops (stateInv_StartLayout li)
  have h2 := stateInv_ProcessOps measure li ops
  exact ⟨h1.1, h1.2.1, h2.2.1⟩

/-- C10: with a registered page consumer the emission guard at the end
of `Process` always fires, because every page starts with its `SetFont`
instruction and so holds at least one instruction.  Hence every run —
including one over an empty token stream — emits at least one page,
every emitted page is non-empty, and the final flush emits exactly one
more page than had been emitted before it. -/
theorem C10_final_page_emitted (li : LayoutInfo)
    (measure : FontStyle → String → ℚ × ℚ) (ops : List Op)
    (hobs : li.hasObserver = true) :
    1 ≤ (ProcessOps measure li ops).pages.length ∧
    (∀ p ∈ (ProcessOps measure li ops).pages, 1 ≤ p.length) ∧
    (ProcessOps measure li ops).pages.length =
      (StartNewLine true (runOps measure (StartLayout li) ops)).pages.length + 1 := by
  have hinv1 : StateInv (StartNewLine true (runOps measure (StartLayout li) ops)) :=
    stateInv_StartNewLine _ _ (stateInv_runOps _ _ _ (stateInv_StartLayout li))
  have hobs1 : (StartNewLine true (runOps measure (StartLayout li) ops)).hasObserver
      = true := by
    rw [StartNewLine_hasObserver, runOps_hasObserver]
    exact hobs
  have hlen : 0 < (StartNewLine true (runOps measure (StartLayout li) ops)).currPage.length :=
    startsWithSetFont_length ⟨_, _, hinv1.1⟩
  have hproc : ProcessOps measure li ops =
      StartNewPage (StartNewLine true (runOps measure (StartLayout li) ops)) := by
    unfold ProcessOps
    dsimp only
    rw [if_pos hlen]
  have hpages : (ProcessOps measure li ops).pages =
      (StartNewLine true (runOps measure (StartLayout li) ops)).pages ++
        [(StartNewLine true (runOps measure (StartLayout li) ops)).currPage] := by
    rw [hproc, StartNewPage_pages, hobs1]
    simp
  refine ⟨?_, ?_, ?_⟩
  · rw [hpages]
    simp
  · intro p hp
    rw [hpages] at hp
    rcases List.mem_append.1 hp with hmem | hmem
    · exact startsWithSetFont_length (hinv1.2.1 p hmem)
    · have : p = (StartNewLine true (runOps measure (StartLayout li) ops)).currPage := by
        simpa using hmem
      rw [this]
      exact startsWithSetFont_length ⟨_, _, hinv1.1⟩
  · rw [hpages]
    simp

/-- Shared concrete layout configuration for the witnesses: a
100 × 30 page, font size 10, line height 10, with a page consumer. -/
def li0 : LayoutInfo :=
  { pageDx := 100, pageDy := 30, fontSize := 10, fontHeight := 10, hasObserver := true }

/-- Shared concrete measurement capability for the witnesses: every
word measures 105 wide and 8 tall. -/
def m0 : FontStyle → String → ℚ × ℚ := fun _ _ => (105, 8)

/-- Witness for C10: at the concrete configuration, over the empty token
stream, the single emitted page holds just the leading `SetFont`. -/
theorem C10_witness :
    li0.hasObserver = true ∧
    1 ≤ (ProcessOps m0 li0 []).pages.length ∧
    (ProcessOps m0 li0 []).pages = [[DrawInstr.setFont FontStyleRegular rect0]] :=
  ⟨rfl, (C10_final_page_emitted li0 m0 [] rfl).1, by decide⟩

/-- A state whose newline counter is zero keeps it zero across
`StartNewLine` (the counter is only ever reset by a page change). -/
theorem StartNewLine_newLinesCount_zero (b : Bool) (s : LayoutState)
    (h : s.newLinesCount = 0) : (StartNewLine b s).newLinesCount = 0 := by
  unfold StartNewLine
  split
  · exact h
  · dsimp only
    split <;> simp [h]

/-- C3: a lone newline token (and any newline token beyond the second of
a run) only bumps the consecutive-newline counter — no instruction, no
cursor movement, no break; exactly at the second consecutive newline the
paragraph break fires, realised as two forced (paragraph-flavoured) line
breaks when the cursor was not at the line start and as one otherwise;
and processing any non-newline word token resets the counter to zero. -/
theorem C3_newline_handling (measure : FontStyle → String → ℚ × ℚ)
    (s : LayoutState) :
    (s.newLinesCount ≠ 1 →
      AddWord measure ⟨"\n"⟩ s = { s with newLinesCount := s.newLinesCount + 1 }) ∧
    (s.newLinesCount = 1 →
      AddWord measure ⟨"\n"⟩ s =
        (if s.currX ≠ 0
         then StartNewLine true (StartNewLine true { s with newLinesCount := 2 })
         else StartNewLine true { s with newLinesCount := 2 })) ∧
    (∀ t : String, t ≠ "\n" → (AddWord measure ⟨t⟩ s).newLinesCount = 0) := by
  refine ⟨?_, ?_, ?_⟩
  · intro hne
    have h2 : ¬(s.newLinesCount + 1 = 2) := by omega
    simp [AddWord, WordInfo.IsNewline, h2]
  · intro hone
    have h2 : s.newLinesCount + 1 = 2 := by omega
    simp [AddWord, WordInfo.IsNewline, h2]
  · intro t ht
    have hnl : (WordInfo.mk t).IsNewline = false := by
      simp [WordInfo.IsNewline, ht]
    unfold AddWord
    rw [hnl]
    simp only [Bool.false_eq_true, if_false]
    dsimp only
    split
    · exact StartNewLine_newLinesCount_zero false { s with newLinesCount := 0 } rfl
    · rfl

/-- Witness for C3 at the concrete configuration: a first newline only
bumps the counter, a second one (cursor at line start) performs exactly
one forced paragraph break, and a word resets the counter. -/
theorem C3_witness :
    AddWord m0 ⟨"\n"⟩ (StartLayout li0) = { StartLayout li0 with newLinesCount := 1 } ∧
    AddWord m0 ⟨"\n"⟩ { StartLayout li0 with newLinesCount := 1 } =
      StartNewLine true { StartLayout li0 with newLinesCount := 2 } ∧
    (AddWord m0 ⟨"ab"⟩ (StartLayout li0)).newLinesCount = 0 := by
  refine ⟨?_, ?_, ?_⟩
  · exact (C3_newline_handling m0 (StartLayout li0)).1 (by decide)
  · have h := (C3_newline_handling m0 { StartLayout li0 with newLinesCount := 1 }).2.1 rfl
    rw [h, if_neg]
    decide
  · exact (C3_newline_handling m0 (StartLayout li0)).2.2 "ab" (by decide)

/-- C4: a non-newline word that would overflow the line
(`curr.x + dx > pageDx`) first finalizes the current line with a
non-paragraph break and is then appended whole — one `Text` instruction
carrying the full string and its full measured width, no splitting or
clamping — at the start of the fresh line (the post-break offset equals
the page length, so the word is the line's first instruction), after
which the cursor advances by the word width plus one inter-word space.
This holds in particular when the word alone is wider than the page. -/
theorem C4_word_overflow (measure : FontStyle → String → ℚ × ℚ)
    (s : LayoutState) (t : String) (ht : ¬(t = "\n"))
    (hover : s.currX + (measure s.currFont t).1 > s.pageDx) :
    AddWord measure ⟨t⟩ s =
      { StartNewLine false { s with newLinesCount := 0 } with
        currPage := (StartNewLine false { s with newLinesCount := 0 }).currPage ++
          [DrawInstr.str t
            ⟨0, (StartNewLine false { s with newLinesCount := 0 }).currY,
              (measure s.currFont t).1, (measure s.currFont t).2⟩],
        currX := (StartNewLine false { s with newLinesCount := 0 }).currX +
          (measure s.currFont t).1 +
          (StartNewLine false { s with newLinesCount := 0 }).spaceDx } ∧
    (StartNewLine false { s with newLinesCount := 0 }).currLineInstrOffset =
      (StartNewLine false { s with newLinesCount := 0 }).currPage.length := by
  refine ⟨?_, StartNewLine_offset false _⟩
  have hnl : (WordInfo.mk t).IsNewline = false := by
    simp [WordInfo.IsNewline, ht]
  unfold AddWord
  rw [hnl]
  simp only [Bool.false_eq_true, if_false]
  dsimp only
  split
  · rfl
  · next hov => exact absurd hover hov

/-- Witness for C4: at the concrete configuration a word measures
105 > 100 = page width, satisfying the overflow hypothesis. -/
theorem C4_witness :
    ((StartLayout li0).currX +
      (m0 (StartLayout li0).currFont "wide").1 > (StartLayout li0).pageDx) ∧
    (StartNewLine false { StartLayout li0 with newLinesCount := 0 }).currLineInstrOffset =
      (StartNewLine false { StartLayout li0 with newLinesCount := 0 }).currPage.length :=
  ⟨by norm_num [StartLayout, li0, m0],
   (C4_word_overflow m0 (StartLayout li0) "wide" (by decide)
      (by norm_num [StartLayout, li0, m0])).2⟩

/-- C5: finalizing a line advances the cursor by exactly one line
height and puts `x` back at 0; when the next line would still fit no
page is emitted, and when it would not (`curr.y + lineSpacing >
pageDy` after the advance) the page is finalized — handed to the
observer when registered, discarded otherwise — and the fresh page has
its cursor at the origin, a zero newline counter and exactly the fresh
leading `SetFont` for the current font. -/
theorem C5_line_advance_pagination (s : LayoutState) (b : Bool)
    (h : ¬(s.currY = 0 ∧ IsCurrentLineEmpty s = true)) :
    (s.currY + s.lineSpacing + s.lineSpacing ≤ s.pageDy →
      (StartNewLine b s).currX = 0 ∧
      (StartNewLine b s).currY = s.currY + s.lineSpacing ∧
      (StartNewLine b s).pages = s.pages ∧
      (StartNewLine b s).currLineInstrOffset = (StartNewLine b s).currPage.length) ∧
    (s.currY + s.lineSpacing + s.lineSpacing > s.pageDy →
      (StartNewLine b s).currX = 0 ∧
      (StartNewLine b s).currY = 0 ∧
      (StartNewLine b s).newLinesCount = 0 ∧
      (StartNewLine b s).currPage = [DrawInstr.setFont s.currFont rect0] ∧
      (s.hasObserver = true →
        (StartNewLine b s).pages.length = s.pages.length + 1) ∧
      (s.hasObserver = false → (StartNewLine b s).pages = s.pages)) := by
  unfold StartNewLine
  rw [if_neg h]
  dsimp only
  constructor
  · intro hfit
    split
    · next hov =>
      exfalso
      simp only [lineBreakJustify_currY, lineBreakJustify_lineSpacing,
        lineBreakJustify_pageDy] at hov
      exact absurd hov (not_lt.mpr hfit)
    · next hov =>
      exact ⟨rfl, by simp, by simp, rfl⟩
  · intro hov2
    split
    · next hov =>
      refine ⟨rfl, rfl, rfl, by simp, ?_, ?_⟩
      · intro hobs
        rw [StartNewPage_pages]
        simp [hobs]
      · intro hobs
        rw [StartNewPage_pages]
        simp [hobs]
    · next hov =>
      exfalso
      simp only [lineBreakJustify_currY, lineBreakJustify_lineSpacing,
        lineBreakJustify_pageDy] at hov
      exact absurd hov2 hov

/-- Concrete state for the C5 witness: page height 30 = exactly 3 lines
of height 10; the third line (starting at `y = 20`) holds one word. -/
def cs5 : LayoutState :=
  { StartLayout li0 with
    currY := 20,
    currX := 11,
    currPage := [DrawInstr.setFont FontStyleRegular rect0,
                 DrawInstr.str "ab" ⟨0, 20, 10, 8⟩] }

/-- Witness for C5: on a page fitting exactly 3 lines, finalizing the
3rd line triggers a new page with cursor at the origin, a fresh leading
`SetFont`, and one more emitted page. -/
theorem C5_witness :
    ¬(cs5.currY = 0 ∧ IsCurrentLineEmpty cs5 = true) ∧
    cs5.currY + cs5.lineSpacing + cs5.lineSpacing > cs5.pageDy ∧
    (StartNewLine true cs5).currY = 0 ∧
    (StartNewLine true cs5).currPage = [DrawInstr.setFont FontStyleRegular rect0] ∧
    (StartNewLine true cs5).pages.length = cs5.pages.length + 1 := by
  have hov : cs5.currY + cs5.lineSpacing + cs5.lineSpacing > cs5.pageDy := by
    norm_num [cs5, StartLayout, li0]
  have h := (C5_line_advance_pagination cs5 true (by decide)).2 hov
  exact ⟨by decide, hov, h.2.1, h.2.2.2.1, h.2.2.2.2.1 rfl⟩

/-! ### Tracking rule and image instructions across operations -/

theorem allInstrs_StartNewPage (s : LayoutState) (hobs : s.hasObserver = true) :
    allInstrs (StartNewPage s) =
      allInstrs s ++ [DrawInstr.setFont s.currFont rect0] := by
  rw [allInstrs, allInstrs, StartNewPage_pages, StartNewPage_currPage, hobs,
    if_pos rfl]
  simp

theorem filters_allInstrs_JustifyLine (m : AlignAttr) (s : LayoutState)
    (hm : m ≠ AlignAttr.justify) :
    linesOf (allInstrs (JustifyLine m s)) = linesOf (allInstrs s) ∧
    imagesOf (allInstrs (JustifyLine m s)) = imagesOf (allInstrs s) := by
  obtain ⟨pg, x, heq, hlen, hhead, hfil⟩ := JustifyLine_spec m s
  obtain ⟨hf1, hf2⟩ := hfil hm
  rw [heq]
  constructor
  · rw [allInstrs, allInstrs]
    simp only [linesOf_append, hf1]
  · rw [allInstrs, allInstrs]
    simp only [imagesOf_append, hf2]

theorem filters_allInstrs_lineBreakJustify_true (s : LayoutState) :
    linesOf (allInstrs (lineBreakJustify true s)) = linesOf (allInstrs s) ∧
    imagesOf (allInstrs (lineBreakJustify true s)) = imagesOf (allInstrs s) := by
  unfold lineBreakJustify
  split
  · exact filters_allInstrs_JustifyLine AlignAttr.left s (by decide)
  · next hcond =>
    have hne : s.currJustification ≠ AlignAttr.justify := fun hj => hcond ⟨rfl, hj⟩
    exact filters_allInstrs_JustifyLine _ s hne

theorem filters_allInstrs_StartNewLine_true (s : LayoutState)
    (hobs : s.hasObserver = true) :
    linesOf (allInstrs (StartNewLine true s)) = linesOf (allInstrs s) ∧
    imagesOf (allInstrs (StartNewLine true s)) = imagesOf (allInstrs s) := by
  unfold StartNewLine
  split
  · exact ⟨rfl, rfl⟩
  · dsimp only
    have hj := filters_allInstrs_lineBreakJustify_true s
    split
    · rw [allInstrs_StartNewPage _ (by simpa using hobs)]
      constructor
      · rw [linesOf_append]
        have h0 : linesOf [DrawInstr.setFont (lineBreakJustify true s).currFont rect0]
            = [] := rfl
        rw [show allInstrs
            { lineBreakJustify true s with
              currX := 0,
              currY := (lineBreakJustify true s).currY + (lineBreakJustify true s).lineSpacing,
              currLineInstrOffset := (lineBreakJustify true s).currPage.length } =
            allInstrs (lineBreakJustify true s) from rfl, h0, hj.1]
        simp
      · rw [imagesOf_append]
        have h0 : imagesOf [DrawInstr.setFont (lineBreakJustify true s).currFont rect0]
            = [] := rfl
        rw [show allInstrs
            { lineBreakJustify true s with
              currX := 0,
              currY := (lineBreakJustify true s).currY + (lineBreakJustify true s).lineSpacing,
              currLineInstrOffset := (lineBreakJustify true s).currPage.length } =
            allInstrs (lineBreakJustify true s) from rfl, h0, hj.2]
        simp
    · exact hj

/-- The state of `AddHr` just before the rule instruction is appended:
a forced paragraph break, the cursor forced to the left edge, and a
fresh page when the rule would not fit. -/
def hrBase (s : LayoutState) : LayoutState :=
  let s1 := StartNewLine true s
  let s2 := { s1 with currX := 0 }
  if s2.currY + s2.lineSpacing > s2.pageDy then StartNewPage s2 else s2

@[simp] theorem hrBase_currX (s : LayoutState) : (hrBase s).currX = 0 := by
  unfold hrBase
  dsimp only
  split <;> rfl

@[simp] theorem hrBase_pageDx (s : LayoutState) : (hrBase s).pageDx = s.pageDx := by
  unfold hrBase
  dsimp only
  split <;> simp

@[simp] theorem hrBase_pageDy (s : LayoutState) : (hrBase s).pageDy = s.pageDy := by
  unfold hrBase
  dsimp only
  split <;> simp

@[simp] theorem hrBase_lineSpacing (s : LayoutState) :
    (hrBase s).lineSpacing = s.lineSpacing := by
  unfold hrBase
  dsimp only
  split <;> simp

@[simp] theorem hrBase_hasObserver (s : LayoutState) :
    (hrBase s).hasObserver = s.hasObserver := by
  unfold hrBase
  dsimp only
  split <;> simp

/-- The vertical position `hrBase` leaves the cursor at always leaves
room for one line height (given that a line fits on an empty page). -/
theorem hrBase_currY_fits (s : LayoutState) (hls : s.lineSpacing ≤ s.pageDy) :
    (hrBase s).currY + s.lineSpacing ≤ s.pageDy := by
  unfold hrBase
  dsimp only
  split
  · next hov =>
    rw [StartNewPage_currY]
    simpa using hls
  · next hov =>
    simp only [StartNewLine_lineSpacing, StartNewLine_pageDy] at hov
    have := not_lt.mp hov
    simpa using this

/-- `hrBase` does not change the recorded rule and image instructions. -/
theorem filters_allInstrs_hrBase (s : LayoutState) (hobs : s.hasObserver = true) :
    linesOf (allInstrs (hrBase s)) = linesOf (allInstrs s) ∧
    imagesOf (allInstrs (hrBase s)) = imagesOf (allInstrs s) := by
  unfold hrBase
  dsimp only
  have h1 := filters_allInstrs_StartNewLine_true s hobs
  have hmid : allInstrs { StartNewLine true s with currX := 0 } =
      allInstrs (StartNewLine true s) := rfl
  split
  · rw [allInstrs_StartNewPage _ (by simpa using hobs)]
    constructor
    · rw [linesOf_append, hmid, h1.1]
      simp [linesOf, DrawInstr.isLine]
    · rw [imagesOf_append, hmid, h1.2]
      simp [imagesOf, DrawInstr.isImage]
  · exact ⟨by rw [hmid, h1.1], by rw [hmid, h1.2]⟩

/-- C6: a horizontal-rule tag appends exactly one `Rule` instruction,
whose bounding box starts at the left edge, spans the full page width
and is one line height tall, placed at a vertical position where it
fits on its page (a new page is started first when it would not);
structurally `AddHr` is a forced paragraph break, then the conditional
page change and the single appended rule (`hrBase`), then another
forced paragraph break. -/
theorem C6_hr_rule (s : LayoutState) (hobs : s.hasObserver = true)
    (hls : s.lineSpacing ≤ s.pageDy) :
    AddHr s = StartNewLine true
      { hrBase s with
        currPage := (hrBase s).currPage ++
          [DrawInstr.line
            ⟨(hrBase s).currX, (hrBase s).currY, (hrBase s).pageDx,
              (hrBase s).lineSpacing⟩] } ∧
    (hrBase s).currX = 0 ∧ (hrBase s).pageDx = s.pageDx ∧
    (hrBase s).lineSpacing = s.lineSpacing ∧
    (hrBase s).currY + s.lineSpacing ≤ s.pageDy ∧
    linesOf (allInstrs (AddHr s)) =
      linesOf (allInstrs s) ++
        [DrawInstr.line
          ⟨(hrBase s).currX, (hrBase s).currY, (hrBase s).pageDx,
            (hrBase s).lineSpacing⟩] := by
  refine ⟨rfl, hrBase_currX s, hrBase_pageDx s, hrBase_lineSpacing s,
    hrBase_currY_fits s hls, ?_⟩
  rw [show AddHr s = StartNewLine true
      { hrBase s with
        currPage := (hrBase s).currPage ++
          [DrawInstr.line
            ⟨(hrBase s).currX, (hrBase s).currY, (hrBase s).pageDx,
              (hrBase s).lineSpacing⟩] } from rfl]
  rw [(filters_allInstrs_StartNewLine_true _ (by simpa using hobs)).1]
  rw [show allInstrs
      { hrBase s with
        currPage := (hrBase s).currPage ++
          [DrawInstr.line
            ⟨(hrBase s).currX, (hrBase s).currY, (hrBase s).pageDx,
              (hrBase s).lineSpacing⟩] } =
      allInstrs (hrBase s) ++
        [DrawInstr.line
          ⟨(hrBase s).currX, (hrBase s).currY, (hrBase s).pageDx,
            (hrBase s).lineSpacing⟩] from by
    rw [allInstrs, allInstrs]
    simp]
  rw [linesOf_append, (filters_allInstrs_hrBase s hobs).1]
  rfl

/-- Witness for C6 at the concrete configuration. -/
theorem C6_witness :
    (StartLayout li0).hasObserver = true ∧
    (StartLayout li0).lineSpacing ≤ (StartLayout li0).pageDy ∧
    (hrBase (StartLayout li0)).currX = 0 ∧
    (hrBase (StartLayout li0)).currY + (StartLayout li0).lineSpacing ≤
      (StartLayout li0).pageDy ∧
    linesOf (allInstrs (AddHr (StartLayout li0))) =
      linesOf (allInstrs (StartLayout li0)) ++
        [DrawInstr.line
          ⟨(hrBase (StartLayout li0)).currX, (hrBase (StartLayout li0)).currY,
            (hrBase (StartLayout li0)).pageDx, (hrBase (StartLayout li0)).lineSpacing⟩] := by
  have h := C6_hr_rule (StartLayout li0) rfl (by norm_num [StartLayout, li0])
  exact ⟨rfl, by norm_num [StartLayout, li0], h.2.1, h.2.2.2.2.1, h.2.2.2.2.2⟩

@[simp] theorem DrawInstr.isImage_addBboxX (i : DrawInstr) (d : ℚ) :
    (i.addBboxX d).isImage = i.isImage := by
  cases i <;> rfl

@[simp] theorem DrawInstr.isLine_addBboxX (i : DrawInstr) (d : ℚ) :
    (i.addBboxX d).isLine = i.isLine := by
  cases i <;> rfl

theorem imagesOf_cons (i : DrawInstr) (l : List DrawInstr) :
    imagesOf (i :: l) = if i.isImage then i :: imagesOf l else imagesOf l := by
  simp [imagesOf, List.filter_cons]

theorem linesOf_cons (i : DrawInstr) (l : List DrawInstr) :
    linesOf (i :: l) = if i.isLine then i :: linesOf l else linesOf l := by
  simp [linesOf, List.filter_cons]

theorem imagesOf_shiftInstrs_nil (e : ℚ) (n : Nat) (l : List DrawInstr)
    (h : imagesOf l = []) : imagesOf (shiftInstrs e n l) = [] := by
  induction l generalizing n with
  | nil => rfl
  | cons i rest ih =>
    rw [imagesOf_cons] at h
    rw [shiftInstrs, imagesOf_cons]
    simp only [DrawInstr.isImage_addBboxX]
    rcases himg : i.isImage with _ | _
    · rw [himg] at h
      simp only [if_false, Bool.false_eq_true] at h ⊢
      exact ih _ h
    · rw [himg] at h
      simp at h

theorem imagesOf_JustifyLineBoth_noImg (s : LayoutState)
    (h : imagesOf (lineInstrs s) = []) :
    imagesOf (JustifyLineBoth s).currPage = imagesOf s.currPage := by
  by_cases hoff : s.currLineInstrOffset ≤ s.currPage.length
  · have htk : (s.currPage.take s.currLineInstrOffset).length = s.currLineInstrOffset := by
      simp [List.length_take]
      omega
    have hline1 : lineInstrs (LayoutLeftStartingAt 0 s) =
        layoutLine s.spaceDx s.currY 0 (lineInstrs s) := by
      rw [lineInstrs, show (LayoutLeftStartingAt 0 s).currPage =
          s.currPage.take s.currLineInstrOffset ++
            layoutLine s.spaceDx s.currY 0 (lineInstrs s) from rfl,
        show (LayoutLeftStartingAt 0 s).currLineInstrOffset =
          s.currLineInstrOffset from rfl]
      exact List.drop_left' htk
    have htake1 : (LayoutLeftStartingAt 0 s).currPage.take s.currLineInstrOffset =
        s.currPage.take s.currLineInstrOffset := by
      rw [show (LayoutLeftStartingAt 0 s).currPage =
          s.currPage.take s.currLineInstrOffset ++
            layoutLine s.spaceDx s.currY 0 (lineInstrs s) from rfl]
      exact List.take_left' htk
    have himgL : imagesOf (layoutLine s.spaceDx s.currY 0 (lineInstrs s)) = [] := by
      rw [imagesOf_layoutLine]
      exact h
    have hmatch : imagesOf
        (match layoutLine s.spaceDx s.currY 0 (lineInstrs s) with
         | [] => ([] : List DrawInstr)
         | first :: rest => first ::
            shiftInstrs (if 1 <
                (lineInstrs (LayoutLeftStartingAt 0 s)).length then
                (s.pageDx - GetCurrentLineDx s) /
                  (((lineInstrs (LayoutLeftStartingAt 0 s)).length - 1 : Nat) : ℚ)
              else (s.pageDx - GetCurrentLineDx s)) 1 rest) = [] := by
      rcases hl : layoutLine s.spaceDx s.currY 0 (lineInstrs s) with _ | ⟨first, rest⟩
      · rfl
      · rw [hl] at himgL
        rw [imagesOf_cons] at himgL ⊢
        rcases himg : first.isImage with _ | _
        · rw [himg] at himgL
          simp only [if_false, Bool.false_eq_true] at himgL ⊢
          exact imagesOf_shiftInstrs_nil _ _ _ himgL
        · rw [himg] at himgL
          simp at himgL
    have hshape : (JustifyLineBoth s).currPage =
        (LayoutLeftStartingAt 0 s).currPage.take s.currLineInstrOffset ++
          (match lineInstrs (LayoutLeftStartingAt 0 s) with
           | [] => ([] : List DrawInstr)
           | first :: rest => first ::
              shiftInstrs (if 1 <
                  (lineInstrs (LayoutLeftStartingAt 0 s)).length then
                  (s.pageDx - GetCurrentLineDx s) /
                    (((lineInstrs (LayoutLeftStartingAt 0 s)).length - 1 : Nat) : ℚ)
                else (s.pageDx - GetCurrentLineDx s)) 1 rest) := rfl
    rw [hshape, imagesOf_append, htake1]
    rw [hline1] at *
    rw [hmatch]
    conv_rhs => rw [← List.take_append_drop s.currLineInstrOffset s.currPage,
      imagesOf_append]
    rw [← lineInstrs, h]
  · -- offset beyond the page: the line is empty and nothing changes
    have hline0 : lineInstrs s = [] := by
      rw [lineInstrs, List.drop_eq_nil_iff.mpr (by omega)]
    have hp1 : (LayoutLeftStartingAt 0 s).currPage = s.currPage := by
      rw [show (LayoutLeftStartingAt 0 s).currPage =
          s.currPage.take s.currLineInstrOffset ++
            layoutLine s.spaceDx s.currY 0 (lineInstrs s) from rfl, hline0,
        layoutLine, List.append_nil, List.take_of_length_le (by omega)]
    have hline1 : lineInstrs (LayoutLeftStartingAt 0 s) = [] := by
      rw [lineInstrs, hp1,
        show (LayoutLeftStartingAt 0 s).currLineInstrOffset =
          s.currLineInstrOffset from rfl]
      exact List.drop_eq_nil_iff.mpr (by omega)
    have hshape : (JustifyLineBoth s).currPage =
        (LayoutLeftStartingAt 0 s).currPage.take s.currLineInstrOffset ++
          (match lineInstrs (LayoutLeftStartingAt 0 s) with
           | [] => ([] : List DrawInstr)
           | first :: rest => first ::
              shiftInstrs (if 1 <
                  (lineInstrs (LayoutLeftStartingAt 0 s)).length then
                  (s.pageDx - GetCurrentLineDx s) /
                    (((lineInstrs (LayoutLeftStartingAt 0 s)).length - 1 : Nat) : ℚ)
                else (s.pageDx - GetCurrentLineDx s)) 1 rest) := rfl
    rw [hshape, hline1, hp1, List.append_nil, List.take_of_length_le (by omega)]

theorem imagesOf_JustifyLine_noImg (m : AlignAttr) (s : LayoutState)
    (h : imagesOf (lineInstrs s) = []) :
    imagesOf (JustifyLine m s).currPage = imagesOf s.currPage := by
  by_cases hemp : IsCurrentLineEmpty s
  · rw [JustifyLine.eq_def, if_pos hemp]
  · cases m with
    | justify =>
      rw [JustifyLine.eq_def, if_neg hemp]
      exact imagesOf_JustifyLineBoth_noImg s h
    | left =>
      obtain ⟨pg, x, heq, hlen, hhead, hfil⟩ := JustifyLine_spec AlignAttr.left s
      rw [heq]
      exact (hfil (by decide)).2
    | right =>
      obtain ⟨pg, x, heq, hlen, hhead, hfil⟩ := JustifyLine_spec AlignAttr.right s
      rw [heq]
      exact (hfil (by decide)).2
    | center =>
      obtain ⟨pg, x, heq, hlen, hhead, hfil⟩ := JustifyLine_spec AlignAttr.center s
      rw [heq]
      exact (hfil (by decide)).2

theorem imagesOf_allInstrs_lineBreakJustify_noImg (b : Bool) (s : LayoutState)
    (h : imagesOf (lineInstrs s) = []) :
    imagesOf (allInstrs (lineBreakJustify b s)) = imagesOf (allInstrs s) := by
  have hpage : ∀ m : AlignAttr,
      imagesOf (allInstrs (JustifyLine m s)) = imagesOf (allInstrs s) := by
    intro m
    rw [allInstrs, allInstrs, imagesOf_append, imagesOf_append,
      JustifyLine_pages, imagesOf_JustifyLine_noImg m s h]
  unfold lineBreakJustify
  split
  · exact hpage AlignAttr.left
  · exact hpage s.currJustification

theorem imagesOf_allInstrs_StartNewLine_noImg (b : Bool) (s : LayoutState)
    (hobs : s.hasObserver = true) (h : imagesOf (lineInstrs s) = []) :
    imagesOf (allInstrs (StartNewLine b s)) = imagesOf (allInstrs s) := by
  unfold StartNewLine
  split
  · rfl
  · dsimp only
    have hj := imagesOf_allInstrs_lineBreakJustify_noImg b s h
    have hmid : allInstrs
        { lineBreakJustify b s with
          currX := 0,
          currY := (lineBreakJustify b s).currY + (lineBreakJustify b s).lineSpacing,
          currLineInstrOffset := (lineBreakJustify b s).currPage.length } =
        allInstrs (lineBreakJustify b s) := rfl
    split
    · rw [allInstrs_StartNewPage _ (by simpa using hobs), imagesOf_append, hmid, hj]
      simp [imagesOf, DrawInstr.isImage]
    · rw [hmid, hj]

/-- Justifying a line that consists of a single image instruction never
touches the page: the left-layout pass skips non-text instructions, and
the proportional-shift loop starts at the second instruction. -/
theorem JustifyLine_currPage_single_image (m : AlignAttr) (s : LayoutState)
    (imgId : Nat) (bb : RectF)
    (h : lineInstrs s = [DrawInstr.image imgId bb]) :
    (JustifyLine m s).currPage = s.currPage := by
  have hoff : s.currLineInstrOffset ≤ s.currPage.length := by
    by_contra hc
    rw [lineInstrs, List.drop_eq_nil_iff.mpr (by omega)] at h
    exact absurd h (by simp)
  have hsplit : s.currPage =
      s.currPage.take s.currLineInstrOffset ++ [DrawInstr.image imgId bb] := by
    conv_lhs => rw [← List.take_append_drop s.currLineInstrOffset s.currPage]
    rw [← lineInstrs, h]
  have hlay : layoutLine s.spaceDx s.currY 0 (lineInstrs s) =
      [DrawInstr.image imgId bb] := by
    rw [h]
    rfl
  by_cases hemp : IsCurrentLineEmpty s
  · rw [JustifyLine.eq_def, if_pos hemp]
  · have htk : (s.currPage.take s.currLineInstrOffset).length =
        s.currLineInstrOffset := by
      simp [List.length_take]
      omega
    have hp1 : (LayoutLeftStartingAt 0 s).currPage = s.currPage := by
      rw [show (LayoutLeftStartingAt 0 s).currPage =
          s.currPage.take s.currLineInstrOffset ++
            layoutLine s.spaceDx s.currY 0 (lineInstrs s) from rfl, hlay]
      exact hsplit.symm
    have hline1 : lineInstrs (LayoutLeftStartingAt 0 s) =
        [DrawInstr.image imgId bb] := by
      rw [lineInstrs, hp1,
        show (LayoutLeftStartingAt 0 s).currLineInstrOffset =
          s.currLineInstrOffset from rfl, ← lineInstrs]
      exact h
    cases m with
    | justify =>
      rw [JustifyLine.eq_def, if_neg hemp]
      show (JustifyLineBoth s).currPage = s.currPage
      rw [show (JustifyLineBoth s).currPage =
          (LayoutLeftStartingAt 0 s).currPage.take s.currLineInstrOffset ++
            (match lineInstrs (LayoutLeftStartingAt 0 s) with
             | [] => ([] : List DrawInstr)
             | first :: rest => first ::
                shiftInstrs (if 1 <
                    (lineInstrs (LayoutLeftStartingAt 0 s)).length then
                    (s.pageDx - GetCurrentLineDx s) /
                      (((lineInstrs (LayoutLeftStartingAt 0 s)).length - 1 : Nat) : ℚ)
                  else (s.pageDx - GetCurrentLineDx s)) 1 rest) from rfl,
        hline1, hp1]
      rw [show (match ([DrawInstr.image imgId bb] : List DrawInstr) with
           | [] => ([] : List DrawInstr)
           | first :: rest => first ::
              shiftInstrs (if 1 <
                  ([DrawInstr.image imgId bb] : List DrawInstr).length then
                  (s.pageDx - GetCurrentLineDx s) /
                    ((([DrawInstr.image imgId bb] : List DrawInstr).length - 1 : Nat) : ℚ)
                else (s.pageDx - GetCurrentLineDx s)) 1 rest) =
          [DrawInstr.image imgId bb] from rfl]
      exact hsplit.symm
    | left =>
      rw [JustifyLine.eq_def, if_neg hemp]
      show (LayoutLeftStartingAt 0 s).currPage = s.currPage
      exact hp1
    | right =>
      rw [JustifyLine.eq_def, if_neg hemp]
      show (LayoutLeftStartingAt (s.pageDx - GetCurrentLineDx s) s).currPage = s.currPage
      rw [show (LayoutLeftStartingAt (s.pageDx - GetCurrentLineDx s) s).currPage =
          s.currPage.take s.currLineInstrOffset ++
            layoutLine s.spaceDx s.currY (s.pageDx - GetCurrentLineDx s)
              (lineInstrs s) from rfl, h]
      exact hsplit.symm
    | center =>
      rw [JustifyLine.eq_def, if_neg hemp]
      show (LayoutLeftStartingAt ((s.pageDx - GetCurrentLineDx s) / 2) s).currPage
        = s.currPage
      rw [show (LayoutLeftStartingAt ((s.pageDx - GetCurrentLineDx s) / 2) s).currPage =
          s.currPage.take s.currLineInstrOffset ++
            layoutLine s.spaceDx s.currY ((s.pageDx - GetCurrentLineDx s) / 2)
              (lineInstrs s) from rfl, h]
      exact hsplit.symm

theorem imagesOf_allInstrs_StartNewLine_singleImage (b : Bool) (s : LayoutState)
    (imgId : Nat) (bb : RectF) (hobs : s.hasObserver = true)
    (h : lineInstrs s = [DrawInstr.image imgId bb]) :
    imagesOf (allInstrs (StartNewLine b s)) = imagesOf (allInstrs s) := by
  unfold StartNewLine
  split
  · rfl
  · dsimp only
    have hpage : (lineBreakJustify b s).currPage = s.currPage := by
      unfold lineBreakJustify
      split <;> exact JustifyLine_currPage_single_image _ s imgId bb h
    have hall : allInstrs (lineBreakJustify b s) = allInstrs s := by
      rw [allInstrs, allInstrs, lineBreakJustify_pages, hpage]
    have hmid : allInstrs
        { lineBreakJustify b s with
          currX := 0,
          currY := (lineBreakJustify b s).currY + (lineBreakJustify b s).lineSpacing,
          currLineInstrOffset := (lineBreakJustify b s).currPage.length } =
        allInstrs (lineBreakJustify b s) := rfl
    split
    · rw [allInstrs_StartNewPage _ (by simpa using hobs), imagesOf_append, hmid, hall]
      simp [imagesOf, DrawInstr.isImage]
    · rw [hmid, hall]

/-- The state of `AddImage` after the leading non-paragraph line break
and the conditional move of an overly tall image to a new page. -/
def imgBase (h : ℚ) (s : LayoutState) : LayoutState :=
  let s1 := StartNewLine false s
  if s1.pageDy - s1.currY < h / 2 then StartNewPage s1 else s1

/-- The (possibly scaled-down) dimensions at which `AddImage` places an
image of pixel size `w × h`, given the state after the page check. -/
def imgDims (w h : ℚ) (s2 : LayoutState) : ℚ × ℚ :=
  if w > s2.pageDx ∨ h > s2.pageDy - s2.currY then
    (w * min (s2.pageDx / w) ((s2.pageDy - s2.currY) / h),
     h * min (s2.pageDx / w) ((s2.pageDy - s2.currY) / h))
  else (w, h)

@[simp] theorem imgBase_pageDx (h : ℚ) (s : LayoutState) :
    (imgBase h s).pageDx = s.pageDx := by
  unfold imgBase
  dsimp only
  split <;> simp

@[simp] theorem imgBase_pageDy (h : ℚ) (s : LayoutState) :
    (imgBase h s).pageDy = s.pageDy := by
  unfold imgBase
  dsimp only
  split <;> simp

@[simp] theorem imgBase_hasObserver (h : ℚ) (s : LayoutState) :
    (imgBase h s).hasObserver = s.hasObserver := by
  unfold imgBase
  dsimp only
  split <;> simp

theorem imgBase_currX (h : ℚ) (s : LayoutState)
    (hx : IsCurrentLineEmpty s = true → s.currX = 0) : (imgBase h s).currX = 0 := by
  have h1 : (StartNewLine false s).currX = 0 := by
    rcases StartNewLine_empty_or_id false s with ⟨_, hx0⟩ | ⟨hid, hemp⟩
    · exact hx0
    · rw [hid]
      exact hx hemp
  unfold imgBase
  dsimp only
  split
  · simp
  · exact h1

theorem imgBase_offset (h : ℚ) (s : LayoutState) :
    (imgBase h s).currLineInstrOffset = (imgBase h s).currPage.length := by
  unfold imgBase
  dsimp only
  split
  · simp
  · exact StartNewLine_offset false s

theorem imagesOf_allInstrs_imgBase (h : ℚ) (s : LayoutState)
    (hobs : s.hasObserver = true) (hni : imagesOf (lineInstrs s) = []) :
    imagesOf (allInstrs (imgBase h s)) = imagesOf (allInstrs s) := by
  unfold imgBase
  dsimp only
  have h1 := imagesOf_allInstrs_StartNewLine_noImg false s hobs hni
  split
  · rw [allInstrs_StartNewPage _ (by simp [hobs]), imagesOf_append, h1]
    simp [imagesOf, DrawInstr.isImage]
  · exact h1

/-- The state of `AddImage` just before its trailing line break: the
(possibly scaled) image appended, horizontally centered from the
cursor, and the cursor advanced by the image height. -/
def imgPlaced (w h : ℚ) (imgId : Nat) (s : LayoutState) : LayoutState :=
  { imgBase h s with
    currX := (imgBase h s).currX +
      ((imgBase h s).pageDx - (imgDims w h (imgBase h s)).1) / 2,
    currPage := (imgBase h s).currPage ++
      [DrawInstr.image imgId
        ⟨(imgBase h s).currX +
            ((imgBase h s).pageDx - (imgDims w h (imgBase h s)).1) / 2,
          (imgBase h s).currY, (imgDims w h (imgBase h s)).1,
          (imgDims w h (imgBase h s)).2⟩],
    currY := (imgBase h s).currY + (imgDims w h (imgBase h s)).2 }

/-- C7: for a resolvable image of pixel size `w × h`: structurally,
`AddImage` is the leading break, the conditional move to a new page
(taken exactly when the remaining space is less than half the image
height), the conditional scale-down, the centered append, the cursor
advance by the image height (`imgPlaced`), and the trailing break.
After scaling the width is at most the page width and the height at
most the space remaining below the cursor; the aspect ratio is
preserved exactly; an image that fits is not scaled; and exactly one
`Image` instruction is appended, horizontally centered at
`(pageWidth − imageWidth) / 2`. -/
theorem C7_image_layout (w h : ℚ) (imgId : Nat) (s : LayoutState)
    (hw : 0 < w) (hh : 0 < h) (hobs : s.hasObserver = true)
    (hx : IsCurrentLineEmpty s = true → s.currX = 0)
    (hni : imagesOf (lineInstrs s) = []) :
    AddImage w h imgId s = StartNewLine false (imgPlaced w h imgId s) ∧
    ((StartNewLine false s).pageDy - (StartNewLine false s).currY < h / 2 →
      imgBase h s = StartNewPage (StartNewLine false s)) ∧
    (¬((StartNewLine false s).pageDy - (StartNewLine false s).currY < h / 2) →
      imgBase h s = StartNewLine false s) ∧
    (imgBase h s).currX = 0 ∧
    (imgDims w h (imgBase h s)).1 ≤ s.pageDx ∧
    (imgDims w h (imgBase h s)).2 ≤ s.pageDy - (imgBase h s).currY ∧
    (imgDims w h (imgBase h s)).1 * h = w * (imgDims w h (imgBase h s)).2 ∧
    (w ≤ s.pageDx ∧ h ≤ s.pageDy - (imgBase h s).currY →
      imgDims w h (imgBase h s) = (w, h)) ∧
    imagesOf (allInstrs (AddImage w h imgId s)) =
      imagesOf (allInstrs s) ++
        [DrawInstr.image imgId
          ⟨(s.pageDx - (imgDims w h (imgBase h s)).1) / 2, (imgBase h s).currY,
            (imgDims w h (imgBase h s)).1, (imgDims w h (imgBase h s)).2⟩] := by
  have hcx := imgBase_currX h s hx
  refine ⟨rfl, ?_, ?_, hcx, ?_, ?_, ?_, ?_, ?_⟩
  · intro hc
    unfold imgBase
    dsimp only
    rw [if_pos hc]
  · intro hc
    unfold imgBase
    dsimp only
    rw [if_neg hc]
  · rw [imgDims]
    split
    · next hcond =>
      show w * min ((imgBase h s).pageDx / w)
          (((imgBase h s).pageDy - (imgBase h s).currY) / h) ≤ s.pageDx
      calc w * min ((imgBase h s).pageDx / w)
            (((imgBase h s).pageDy - (imgBase h s).currY) / h)
          ≤ w * ((imgBase h s).pageDx / w) :=
            mul_le_mul_of_nonneg_left (min_le_left _ _) (le_of_lt hw)
        _ = (imgBase h s).pageDx := by
            rw [mul_comm]
            exact div_mul_cancel₀ _ (ne_of_gt hw)
        _ = s.pageDx := imgBase_pageDx h s
    · next hcond =>
      push_neg at hcond
      show w ≤ s.pageDx
      rw [← imgBase_pageDx h s]
      exact hcond.1
  · rw [imgDims]
    split
    · next hcond =>
      show h * min ((imgBase h s).pageDx / w)
          (((imgBase h s).pageDy - (imgBase h s).currY) / h) ≤
            s.pageDy - (imgBase h s).currY
      calc h * min ((imgBase h s).pageDx / w)
            (((imgBase h s).pageDy - (imgBase h s).currY) / h)
          ≤ h * (((imgBase h s).pageDy - (imgBase h s).currY) / h) :=
            mul_le_mul_of_nonneg_left (min_le_right _ _) (le_of_lt hh)
        _ = (imgBase h s).pageDy - (imgBase h s).currY := by
            rw [mul_comm]
            exact div_mul_cancel₀ _ (ne_of_gt hh)
        _ = s.pageDy - (imgBase h s).currY := by rw [imgBase_pageDy]
    · next hcond =>
      push_neg at hcond
      show h ≤ s.pageDy - (imgBase h s).currY
      rw [← imgBase_pageDy h s]
      exact hcond.2
  · rw [imgDims]
    split
    · show w * min ((imgBase h s).pageDx / w)
          (((imgBase h s).pageDy - (imgBase h s).currY) / h) * h =
        w * (h * min ((imgBase h s).pageDx / w)
          (((imgBase h s).pageDy - (imgBase h s).currY) / h))
      ring
    · show w * h = w * h
      rfl
  · intro hfits
    rw [imgDims, if_neg]
    push_neg
    constructor
    · rw [imgBase_pageDx]
      exact hfits.1
    · rw [imgBase_pageDy]
      exact hfits.2
  · have himg : lineInstrs (imgPlaced w h imgId s) =
        [DrawInstr.image imgId
          ⟨(imgBase h s).currX +
              ((imgBase h s).pageDx - (imgDims w h (imgBase h s)).1) / 2,
            (imgBase h s).currY, (imgDims w h (imgBase h s)).1,
            (imgDims w h (imgBase h s)).2⟩] := by
      rw [lineInstrs]
      exact List.drop_left' (imgBase_offset h s).symm
    have hXeq : (imgBase h s).currX +
        ((imgBase h s).pageDx - (imgDims w h (imgBase h s)).1) / 2 =
        (s.pageDx - (imgDims w h (imgBase h s)).1) / 2 := by
      rw [hcx, imgBase_pageDx, zero_add]
    rw [show AddImage w h imgId s = StartNewLine false (imgPlaced w h imgId s)
        from rfl,
      imagesOf_allInstrs_StartNewLine_singleImage false _ imgId _
        (by simp [imgPlaced, hobs]) himg]
    rw [show allInstrs (imgPlaced w h imgId s) =
        allInstrs (imgBase h s) ++
          [DrawInstr.image imgId
            ⟨(imgBase h s).currX +
                ((imgBase h s).pageDx - (imgDims w h (imgBase h s)).1) / 2,
              (imgBase h s).currY, (imgDims w h (imgBase h s)).1,
              (imgDims w h (imgBase h s)).2⟩] from by
      rw [allInstrs, allInstrs, imgPlaced]
      dsimp only
      rw [List.append_assoc]]
    rw [imagesOf_append, imagesOf_allInstrs_imgBase h s hobs hni, hXeq]
    rfl

/-! ### Justification arithmetic (C1) -/

@[simp] theorem DrawInstr.isStr_addBboxX (i : DrawInstr) (d : ℚ) :
    (i.addBboxX d).isStr = i.isStr := by
  cases i <;> rfl

@[simp] theorem DrawInstr.bbox_addBboxX (i : DrawInstr) (d : ℚ) :
    (i.addBboxX d).bbox = { i.bbox with X := i.bbox.X + d } := by
  cases i <;> rfl

/-- The left edges produced by laying a line out left-to-right from `x`:
each word starts where the previous one ended plus the inter-word
space. -/
def offsets (sp : ℚ) : ℚ → List ℚ → List ℚ
  | _, [] => []
  | x, wd :: ws => x :: offsets sp (x + wd + sp) ws

theorem offsets_length (sp x : ℚ) (ws : List ℚ) :
    (offsets sp x ws).length = ws.length := by
  induction ws generalizing x with
  | nil => rfl
  | cons wd ws ih => simp [offsets, ih]

theorem offsets_getElem? (sp : ℚ) (ws : List ℚ) (x : ℚ) (k : Nat)
    (hk : k < ws.length) :
    (offsets sp x ws)[k]? = some (x + (ws.take k).sum + (k : ℚ) * sp) := by
  induction ws generalizing x k with
  | nil => simp at hk
  | cons wd ws ih =>
    cases k with
    | zero => simp [offsets]
    | succ k =>
      rw [offsets]
      rw [List.getElem?_cons_succ]
      rw [ih _ _ (by simpa using hk)]
      congr 1
      push_cast
      rw [List.take_succ_cons, List.sum_cons]
      ring

theorem strXsL_eq_map (l : List DrawInstr) (hall : ∀ i ∈ l, i.isStr = true) :
    strXsL l = l.map fun i => i.bbox.X := by
  induction l with
  | nil => rfl
  | cons i rest ih =>
    have hi := hall i (by simp)
    cases i with
    | str t bb =>
        simp only [strXsL, List.filterMap_cons, List.map_cons]
        rw [← strXsL, ih (fun j hj => hall j (by simp [hj]))]
        rfl
    | setFont f bb => simp [DrawInstr.isStr] at hi
    | line bb => simp [DrawInstr.isStr] at hi
    | image g bb => simp [DrawInstr.isStr] at hi

theorem strWidthsL_eq_map (l : List DrawInstr) (hall : ∀ i ∈ l, i.isStr = true) :
    strWidthsL l = l.map fun i => i.bbox.Width := by
  induction l with
  | nil => rfl
  | cons i rest ih =>
    have hi := hall i (by simp)
    cases i with
    | str t bb =>
        simp only [strWidthsL, List.filterMap_cons, List.map_cons]
        rw [← strWidthsL, ih (fun j hj => hall j (by simp [hj]))]
        rfl
    | setFont f bb => simp [DrawInstr.isStr] at hi
    | line bb => simp [DrawInstr.isStr] at hi
    | image g bb => simp [DrawInstr.isStr] at hi

theorem strRightsL_eq_map (l : List DrawInstr) (hall : ∀ i ∈ l, i.isStr = true) :
    strRightsL l = l.map fun i => i.bbox.X + i.bbox.Width := by
  induction l with
  | nil => rfl
  | cons i rest ih =>
    have hi := hall i (by simp)
    cases i with
    | str t bb =>
        simp only [strRightsL, List.filterMap_cons, List.map_cons]
        rw [← strRightsL, ih (fun j hj => hall j (by simp [hj]))]
        rfl
    | setFont f bb => simp [DrawInstr.isStr] at hi
    | line bb => simp [DrawInstr.isStr] at hi
    | image g bb => simp [DrawInstr.isStr] at hi

theorem allStr_layoutLine (sp y x : ℚ) (l : List DrawInstr)
    (hall : ∀ i ∈ l, i.isStr = true) :
    ∀ i ∈ layoutLine sp y x l, i.isStr = true := by
  induction l generalizing x with
  | nil => simp [layoutLine]
  | cons i rest ih =>
    have hi := hall i (by simp)
    cases i with
    | str t bb =>
        intro j hj
        rw [layoutLine] at hj
        rcases List.mem_cons.1 hj with hj1 | hj2
        · rw [hj1]
          rfl
        · exact ih _ (fun j2 hj2b => hall j2 (by simp [hj2b])) j hj2
    | setFont f bb => simp [DrawInstr.isStr] at hi
    | line bb => simp [DrawInstr.isStr] at hi
    | image g bb => simp [DrawInstr.isStr] at hi

theorem allStr_shiftInstrs (e : ℚ) (n : Nat) (l : List DrawInstr)
    (hall : ∀ i ∈ l, i.isStr = true) :
    ∀ i ∈ shiftInstrs e n l, i.isStr = true := by
  induction l generalizing n with
  | nil => simp [shiftInstrs]
  | cons i rest ih =>
    intro j hj
    rw [shiftInstrs] at hj
    rcases List.mem_cons.1 hj with hj1 | hj2
    · rw [hj1, DrawInstr.isStr_addBboxX]
      exact hall i (by simp)
    · exact ih _ (fun j2 hj2b => hall j2 (by simp [hj2b])) j hj2

theorem strXsL_layoutLine (sp y : ℚ) (l : List DrawInstr) (x : ℚ)
    (hall : ∀ i ∈ l, i.isStr = true) :
    strXsL (layoutLine sp y x l) = offsets sp x (strWidthsL l) := by
  induction l generalizing x with
  | nil => rfl
  | cons i rest ih =>
    have hi := hall i (by simp)
    cases i with
    | str t bb =>
        rw [layoutLine]
        simp only [strXsL, strWidthsL, List.filterMap_cons]
        rw [← strXsL, ← strWidthsL, offsets,
          ih _ (fun j hj => hall j (by simp [hj]))]
    | setFont f bb => simp [DrawInstr.isStr] at hi
    | line bb => simp [DrawInstr.isStr] at hi
    | image g bb => simp [DrawInstr.isStr] at hi

theorem strWidthsL_layoutLine (sp y : ℚ) (l : List DrawInstr) (x : ℚ) :
    strWidthsL (layoutLine sp y x l) = strWidthsL l := by
  induction l generalizing x with
  | nil => rfl
  | cons i rest ih =>
    cases i <;>
      simp only [layoutLine, strWidthsL, List.filterMap_cons] <;>
      rw [← strWidthsL, ← strWidthsL, ih]

theorem shiftInstrs_getElem? (e : ℚ) (n : Nat) (l : List DrawInstr) (k : Nat) :
    (shiftInstrs e n l)[k]? =
      (l[k]?).map fun i => i.addBboxX (((n : ℚ) + (k : ℚ)) * e) := by
  induction l generalizing n k with
  | nil => simp [shiftInstrs]
  | cons i rest ih =>
    cases k with
    | zero => simp [shiftInstrs]
    | succ k =>
      rw [shiftInstrs, List.getElem?_cons_succ, List.getElem?_cons_succ, ih]
      cases rest[k]? with
      | none => rfl
      | some j =>
          show some _ = some _
          congr 2
          push_cast
          ring_nf

theorem lineDxAux_allStr (sp : ℚ) (l : List DrawInstr) (a : ℚ)
    (hall : ∀ i ∈ l, i.isStr = true) :
    lineDxAux sp a l = a + (strWidthsL l).sum + (l.length : ℚ) * sp := by
  induction l generalizing a with
  | nil => simp [lineDxAux, strWidthsL]
  | cons i rest ih =>
    have hi := hall i (by simp)
    cases i with
    | str t bb =>
        rw [lineDxAux, ih _ (fun j hj => hall j (by simp [hj]))]
        simp only [strWidthsL, List.filterMap_cons]
        rw [← strWidthsL]
        push_cast [List.sum_cons, List.length_cons]
        ring
    | setFont f bb => simp [DrawInstr.isStr] at hi
    | line bb => simp [DrawInstr.isStr] at hi
    | image g bb => simp [DrawInstr.isStr] at hi

@[simp] theorem DrawInstr.addBboxX_zero (i : DrawInstr) : i.addBboxX 0 = i := by
  cases i <;> simp [DrawInstr.addBboxX]

theorem strWidthsL_shiftInstrs (e : ℚ) (n : Nat) (l : List DrawInstr) :
    strWidthsL (shiftInstrs e n l) = strWidthsL l := by
  induction l generalizing n with
  | nil => rfl
  | cons i rest ih =>
    rw [shiftInstrs]
    cases i <;>
      simp only [DrawInstr.addBboxX, strWidthsL, List.filterMap_cons] <;>
      rw [← strWidthsL, ← strWidthsL, ih]

theorem lineInstrs_LayoutLeft (offX : ℚ) (s : LayoutState)
    (hoff : s.currLineInstrOffset ≤ s.currPage.length) :
    lineInstrs (LayoutLeftStartingAt offX s) =
      layoutLine s.spaceDx s.currY offX (lineInstrs s) := by
  have htk : (s.currPage.take s.currLineInstrOffset).length =
      s.currLineInstrOffset := by
    simp [List.length_take]
    omega
  rw [lineInstrs, show (LayoutLeftStartingAt offX s).currPage =
      s.currPage.take s.currLineInstrOffset ++
        layoutLine s.spaceDx s.currY offX (lineInstrs s) from rfl,
    show (LayoutLeftStartingAt offX s).currLineInstrOffset =
      s.currLineInstrOffset from rfl]
  exact List.drop_left' htk

/-- The line range produced by `JustifyLineBoth`: the left-layouted line
with the proportional shift applied from the second instruction on. -/
theorem JustifyLineBoth_line (s : LayoutState)
    (hoff : s.currLineInstrOffset ≤ s.currPage.length) :
    lineInstrs (JustifyLineBoth s) =
      (match layoutLine s.spaceDx s.currY 0 (lineInstrs s) with
       | [] => ([] : List DrawInstr)
       | first :: rest => first ::
          shiftInstrs
            (if 1 < (lineInstrs s).length then
              (s.pageDx - GetCurrentLineDx s) /
                (((lineInstrs s).length - 1 : Nat) : ℚ)
             else (s.pageDx - GetCurrentLineDx s)) 1 rest) := by
  have htk : ((LayoutLeftStartingAt 0 s).currPage.take s.currLineInstrOffset).length
      = s.currLineInstrOffset := by
    rw [show (LayoutLeftStartingAt 0 s).currPage =
        s.currPage.take s.currLineInstrOffset ++
          layoutLine s.spaceDx s.currY 0 (lineInstrs s) from rfl]
    rw [List.take_append_eq_append_take]
    simp [List.length_take, layoutLine_length, lineInstrs]
    omega
  rw [lineInstrs, show (JustifyLineBoth s).currPage =
      (LayoutLeftStartingAt 0 s).currPage.take s.currLineInstrOffset ++
        (match lineInstrs (LayoutLeftStartingAt 0 s) with
         | [] => ([] : List DrawInstr)
         | first :: rest => first ::
            shiftInstrs
              (if 1 < (lineInstrs (LayoutLeftStartingAt 0 s)).length then
                (s.pageDx - GetCurrentLineDx s) /
                  (((lineInstrs (LayoutLeftStartingAt 0 s)).length - 1 : Nat) : ℚ)
               else (s.pageDx - GetCurrentLineDx s)) 1 rest) from rfl,
    show (JustifyLineBoth s).currLineInstrOffset = s.currLineInstrOffset from rfl,
    List.drop_left' htk, lineInstrs_LayoutLeft 0 s hoff, layoutLine_length]

/-- The word widths of the current line. -/
def lineWidths (s : LayoutState) : List ℚ := strWidthsL (lineInstrs s)

/-- `lineContentWidth`: the sum of the text widths on the line plus one
inter-word space per gap (what `GetCurrentLineDx` computes on a line of
text instructions). -/
def lineContentWidth (s : LayoutState) : ℚ :=
  (lineWidths s).sum + (((lineInstrs s).length : ℚ) - 1) * s.spaceDx

/-- `extraSpacePerGap`: the proportional shift applied per gap by full
justification, `margin / (count − 1)`. -/
def extraSpacePerGap (s : LayoutState) : ℚ :=
  (s.pageDx - lineContentWidth s) / (((lineInstrs s).length : ℚ) - 1)

/-- `GetCurrentLineDx` on a line of text instructions with nonnegative
widths and a nonnegative inter-word space is exactly the line content
width (the clamping to 0 never fires). -/
theorem GetCurrentLineDx_allStr (s : LayoutState)
    (hstr : ∀ i ∈ lineInstrs s, i.isStr = true)
    (hN : 2 ≤ (lineInstrs s).length)
    (hwid : ∀ i ∈ lineInstrs s, 0 ≤ i.bbox.Width)
    (hsp : 0 ≤ s.spaceDx) :
    GetCurrentLineDx s = lineContentWidth s := by
  have hsum0 : 0 ≤ (strWidthsL (lineInstrs s)).sum := by
    apply List.sum_nonneg
    intro x hx
    obtain ⟨i, hi, hmi⟩ := List.mem_filterMap.1 hx
    cases i with
    | str t bb =>
        have : bb.Width = x := by simpa using hmi
        rw [← this]
        exact hwid _ hi
    | setFont f bb => simp at hmi
    | line bb => simp at hmi
    | image g bb => simp at hmi
  have hNQ : (2 : ℚ) ≤ ((lineInstrs s).length : ℚ) := by exact_mod_cast hN
  have hprod : 0 ≤ (((lineInstrs s).length : ℚ) - 1) * s.spaceDx :=
    mul_nonneg (by linarith) hsp
  rw [GetCurrentLineDx]
  rw [lineDxAux_allStr s.spaceDx (lineInstrs s) (-s.spaceDx) hstr]
  rw [if_neg (by push_neg; nlinarith)]
  rw [lineContentWidth, lineWidths]
  ring

/-- C1 (amended): for a line finalized under full justification whose
instruction range consists solely of N ≥ 2 text instructions (with
nonnegative widths and a nonnegative inter-word space — true of every
measured width), after `JustifyLineBoth` the k-th word sits at the
left-layout position `(take k widths).sum + k·spaceDx` shifted right by
`k · extraSpacePerGap` with `extraSpacePerGap = (pageDx −
lineContentWidth) / (N − 1)`; in particular the first word's left edge
is 0 and the last word's right edge is exactly the page width.  (The
claim as frozen also covers lines whose range contains non-text
instructions; there it fails — see the counterexample — because the
loop counts and shifts instructions of every type.) -/
theorem C1_justify_line (s : LayoutState)
    (hstr : ∀ i ∈ lineInstrs s, i.isStr = true)
    (hN : 2 ≤ (lineInstrs s).length)
    (hwid : ∀ i ∈ lineInstrs s, 0 ≤ i.bbox.Width)
    (hsp : 0 ≤ s.spaceDx) :
    (strXsL (lineInstrs (JustifyLineBoth s)))[0]? = some 0 ∧
    (∀ k, k < (lineInstrs s).length →
      (strXsL (lineInstrs (JustifyLineBoth s)))[k]? =
        some (((lineWidths s).take k).sum + (k : ℚ) * s.spaceDx +
          (k : ℚ) * extraSpacePerGap s)) ∧
    (strRightsL (lineInstrs (JustifyLineBoth s)))[(lineInstrs s).length - 1]? =
      some s.pageDx := by
  have hne : lineInstrs s ≠ [] := by
    intro h0
    rw [h0] at hN
    simp at hN
  have hoff : s.currLineInstrOffset ≤ s.currPage.length := by
    by_contra hc
    exact hne (by rw [lineInstrs]; exact List.drop_eq_nil_iff.mpr (by omega))
  have hD := GetCurrentLineDx_allStr s hstr hN hwid hsp
  have hjust := JustifyLineBoth_line s hoff
  rw [if_pos (by omega : 1 < (lineInstrs s).length), hD,
    Nat.cast_sub (by omega : 1 ≤ (lineInstrs s).length), Nat.cast_one,
    show (s.pageDx - lineContentWidth s) / (((lineInstrs s).length : ℚ) - 1) =
      extraSpacePerGap s from rfl] at hjust
  have hallL : ∀ i ∈ layoutLine s.spaceDx s.currY 0 (lineInstrs s), i.isStr = true :=
    allStr_layoutLine _ _ _ _ hstr
  have hlenL : (layoutLine s.spaceDx s.currY 0 (lineInstrs s)).length =
      (lineInstrs s).length := layoutLine_length _ _ _ _
  have hxs : strXsL (layoutLine s.spaceDx s.currY 0 (lineInstrs s)) =
      offsets s.spaceDx 0 (lineWidths s) := by
    rw [lineWidths]
    exact strXsL_layoutLine _ _ _ _ hstr
  have hwsL : strWidthsL (layoutLine s.spaceDx s.currY 0 (lineInstrs s)) =
      lineWidths s := by
    rw [lineWidths]
    exact strWidthsL_layoutLine _ _ _ _
  have hwlen : (lineWidths s).length = (lineInstrs s).length := by
    rw [lineWidths, strWidthsL_eq_map _ hstr, List.length_map]
  rcases hLs : layoutLine s.spaceDx s.currY 0 (lineInstrs s) with _ | ⟨f, r⟩
  · rw [hLs] at hlenL
    simp at hlenL
    omega
  rw [hLs] at hjust hallL hlenL hxs hwsL
  -- the justified line
  have hJ : lineInstrs (JustifyLineBoth s) =
      f :: shiftInstrs (extraSpacePerGap s) 1 r := hjust
  have hallJ : ∀ i ∈ f :: shiftInstrs (extraSpacePerGap s) 1 r, i.isStr = true := by
    intro i hi
    rcases List.mem_cons.1 hi with h1 | h2
    · rw [h1]
      exact hallL f (by simp)
    · exact allStr_shiftInstrs _ _ _ (fun j hj => hallL j (by simp [hj])) i h2
  have hlenJ : (f :: shiftInstrs (extraSpacePerGap s) 1 r).length =
      (lineInstrs s).length := by
    rw [List.length_cons, shiftInstrs_length]
    simpa using hlenL
  -- index characterisation of the justified line
  have hJk : ∀ k : Nat, (f :: shiftInstrs (extraSpacePerGap s) 1 r)[k]? =
      ((f :: r)[k]?).map fun i => i.addBboxX ((k : ℚ) * extraSpacePerGap s) := by
    intro k
    cases k with
    | zero => simp
    | succ k =>
        rw [List.getElem?_cons_succ, List.getElem?_cons_succ, shiftInstrs_getElem?]
        cases r[k]? with
        | none => rfl
        | some j =>
            show some _ = some _
            congr 2
            push_cast
            ring_nf
  have hXL : ∀ k, k < (lineInstrs s).length →
      ((f :: r)[k]?).map (fun i => i.bbox.X) =
        some (0 + ((lineWidths s).take k).sum + (k : ℚ) * s.spaceDx) := by
    intro k hk
    rw [← List.getElem?_map, ← strXsL_eq_map _ hallL, hxs]
    exact offsets_getElem? _ _ _ _ (by rw [hwlen]; omega)
  have hXk : ∀ k, k < (lineInstrs s).length →
      (strXsL (lineInstrs (JustifyLineBoth s)))[k]? =
        some (((lineWidths s).take k).sum + (k : ℚ) * s.spaceDx +
          (k : ℚ) * extraSpacePerGap s) := by
    intro k hk
    have hkf : k < (f :: r).length := by
      rw [hlenL]
      omega
    have h1 := hXL k hk
    rw [List.getElem?_eq_getElem hkf, Option.map_some'] at h1
    have h2 := Option.some.inj h1
    rw [hJ, strXsL_eq_map _ hallJ, List.getElem?_map, hJk k,
      List.getElem?_eq_getElem hkf, Option.map_some', Option.map_some',
      DrawInstr.bbox_addBboxX]
    show some _ = some _
    congr 1
    show ((f :: r)[k]).bbox.X + (k : ℚ) * extraSpacePerGap s = _
    rw [h2]
    ring
  have hNQ : (2 : ℚ) ≤ ((lineInstrs s).length : ℚ) := by exact_mod_cast hN
  have hNe : ((lineInstrs s).length : ℚ) - 1 ≠ 0 := by linarith
  refine ⟨?_, hXk, ?_⟩
  · have h0 := hXk 0 (by omega)
    simpa using h0
  · have hklt : (lineInstrs s).length - 1 < (f :: r).length := by
      rw [hlenL]
      omega
    have hwlt : (lineInstrs s).length - 1 < (lineWidths s).length := by
      rw [hwlen]
      omega
    -- the width of the last word
    have hW : (((f :: r)[(lineInstrs s).length - 1]?).map
        fun i => i.bbox.Width) = (lineWidths s)[(lineInstrs s).length - 1]? := by
      rw [← List.getElem?_map, ← strWidthsL_eq_map _ hallL, hwsL]
    rw [List.getElem?_eq_getElem hklt, List.getElem?_eq_getElem hwlt,
      Option.map_some'] at hW
    have hW2 := Option.some.inj hW
    -- the left edge of the last word
    have h1 := hXL ((lineInstrs s).length - 1) (by omega)
    rw [List.getElem?_eq_getElem hklt, Option.map_some'] at h1
    have h2 := Option.some.inj h1
    -- the take/last sum decomposition
    have hdrop : (lineWidths s).drop ((lineInstrs s).length - 1) =
        [(lineWidths s)[(lineInstrs s).length - 1]] := by
      rw [← List.getElem_cons_drop _ _ hwlt,
        List.drop_eq_nil_iff.mpr (by omega)]
    have hsum := List.sum_take_add_sum_drop (lineWidths s) ((lineInstrs s).length - 1)
    rw [hdrop] at hsum
    simp only [List.sum_cons, List.sum_nil, add_zero] at hsum
    -- the per-gap shift times the gap count is the whole margin
    have hcancel : (((lineInstrs s).length : ℚ) - 1) * extraSpacePerGap s =
        s.pageDx - lineContentWidth s := by
      rw [extraSpacePerGap, mul_comm]
      exact div_mul_cancel₀ _ hNe
    rw [hJ, strRightsL_eq_map _ hallJ, List.getElem?_map, hJk _,
      List.getElem?_eq_getElem hklt, Option.map_some', Option.map_some',
      DrawInstr.bbox_addBboxX]
    show some _ = some _
    congr 1
    show ((f :: r)[(lineInstrs s).length - 1]).bbox.X +
        (((lineInstrs s).length - 1 : ℕ) : ℚ) * extraSpacePerGap s +
      ((f :: r)[(lineInstrs s).length - 1]).bbox.Width = s.pageDx
    rw [h2, hW2, Nat.cast_sub (by omega : 1 ≤ (lineInstrs s).length), Nat.cast_one,
      hcancel]
    rw [lineContentWidth]
    linarith [hsum]

/-- A mid-paragraph line under justification whose range holds a
`SetFont` (from a style tag) followed by two words of width 10:
page width 100, inter-word space 4. -/
def cs1 : LayoutState :=
  { pageDx := 100, pageDy := 1000, lineSpacing := 10, spaceDx := 4,
    hasObserver := true, currFontStyle := ⟨true, false, false, false⟩,
    currFont := ⟨true, false, false, false⟩,
    currJustification := AlignAttr.justify, currX := 0, currY := 0,
    newLinesCount := 0,
    currPage := [DrawInstr.setFont FontStyleRegular rect0,
                 DrawInstr.setFont ⟨true, false, false, false⟩ rect0,
                 DrawInstr.str "ab" ⟨0, 0, 10, 8⟩,
                 DrawInstr.str "cd" ⟨0, 0, 10, 8⟩],
    currLineInstrOffset := 1, pageStartFont := FontStyleRegular, pages := [] }

/-- Counterexample to C1 as stated: `cs1`'s line is finalized under
justify mode and contains exactly 2 text (word) instructions, yet after
`JustifyLineBoth` the first word's left edge is 38, not 0 — the shift
loop counts and shifts the line's `SetFont` instruction too, so the
first word is the second instruction and receives a one-gap shift
(margin 76 split over 3 − 1 = 2 gaps). -/
theorem C1_counterexample :
    cs1.currJustification = AlignAttr.justify ∧
    (strXsL (lineInstrs cs1)).length = 2 ∧
    (strXsL (lineInstrs (JustifyLineBoth cs1)))[0]? = some 38 ∧
    ((38 : ℚ) ≠ 0) := by
  refine ⟨rfl, by decide, ?_, by norm_num⟩
  norm_num [JustifyLineBoth, LayoutLeftStartingAt, lineInstrs, cs1,
    GetCurrentLineDx, lineDxAux, layoutLine, layoutEndX, shiftInstrs,
    strXsL, DrawInstr.addBboxX]
  rfl

/-- An all-text justified line: two words of width 10 on a page of
width 100 with inter-word space 4. -/
def cs1w : LayoutState :=
  { pageDx := 100, pageDy := 1000, lineSpacing := 10, spaceDx := 4,
    hasObserver := true, currFontStyle := FontStyleRegular,
    currFont := FontStyleRegular,
    currJustification := AlignAttr.justify, currX := 0, currY := 0,
    newLinesCount := 0,
    currPage := [DrawInstr.setFont FontStyleRegular rect0,
                 DrawInstr.str "ab" ⟨0, 0, 10, 8⟩,
                 DrawInstr.str "cd" ⟨0, 0, 10, 8⟩],
    currLineInstrOffset := 1, pageStartFont := FontStyleRegular, pages := [] }

/-- Witness for the amended C1 at a concrete all-text line: the first
word ends at the left edge and the last word's right edge is the page
width. -/
theorem C1_witness :
    (∀ i ∈ lineInstrs cs1w, i.isStr = true) ∧
    2 ≤ (lineInstrs cs1w).length ∧
    (strXsL (lineInstrs (JustifyLineBoth cs1w)))[0]? = some 0 ∧
    (strRightsL (lineInstrs (JustifyLineBoth cs1w)))[(lineInstrs cs1w).length - 1]?
      = some cs1w.pageDx := by
  have hstr : ∀ i ∈ lineInstrs cs1w, i.isStr = true := by decide
  have hwid : ∀ i ∈ lineInstrs cs1w, 0 ≤ i.bbox.Width := by
    intro i hi
    simp [lineInstrs, cs1w] at hi
    rcases hi with h | h <;> rw [h] <;> norm_num [DrawInstr.bbox]
  have h := C1_justify_line cs1w hstr (by decide) hwid (by norm_num [cs1w])
  exact ⟨hstr, by decide, h.1, h.2.2⟩

/-- C8 (behaviour of the code at the failing input): on the text span
`"\t"` — a single tab — `WordsIter::Next` skips no leading plain
spaces, matches no newline, and the non-whitespace scan stops
immediately, so it returns a *word token of length 0* (violating the
source's own `assert(wi.len > 0)`) without advancing the position;
iterating `Next` therefore never reaches the end-of-input sentinel.
The newline-normalization and space-skipping parts of the contract do
hold, as the last two conjuncts show on `"\r\n"` and `"  "`. -/
theorem C8_tab_zero_length_word :
    wordsIterNext ['\t'] 0 = some (WordTok.word 0 0, 0) ∧
    (∀ k : Nat,
      Nat.iterate (fun p =>
        match wordsIterNext ['\t'] p with
        | some (_, p2) => p2
        | none => p) k 0 = 0) ∧
    wordsIterNext ['\r', '\n'] 0 = some (WordTok.newline, 2) ∧
    wordsIterNext ['\r', '\n'] 2 = none ∧
    wordsIterNext [' ', ' '] 0 = none := by
  refine ⟨by decide, ?_, by decide, by decide, by decide⟩
  intro k
  induction k with
  | zero => rfl
  | succ k ih =>
      rw [Function.iterate_succ_apply', ih]
      decide

/-- C9 (behaviour of the code): `FontCache::GetFont` performs no
validity check on the font it constructs — on a cache miss it returns
whatever the constructor produced and caches it.  In particular, with a
constructor that fails for the requested (name, size, style), the
caller receives the invalid handle: no fallback to a
previously-successful cache entry or known-safe default occurs (the
source marks that handling as a TODO). -/
theorem C9_getfont_no_fallback (construct : FontDesc → FontHandle)
    (cache : List FontCacheEntry) (name : String) (size : ℚ) (style : FontStyle)
    (hfind : cache.find?
      (fun e => e.name == name && e.size == size && e.style == style) = none) :
    (FontCacheGetFont construct cache name size style).1 =
      construct ⟨name, size, style⟩ ∧
    (FontCacheGetFont construct cache name size style).2 =
      cache ++ [⟨name, size, style, construct ⟨name, size, style⟩⟩] := by
  rw [FontCacheGetFont, hfind]
  exact ⟨rfl, rfl⟩

/-- A font constructor that always fails: the handle it returns carries
`valid = false` (a GDI+ `Font` object in an error state). -/
def badConstruct : FontDesc → FontHandle := fun d => ⟨d, false⟩

/-- Witness for C9: on an empty cache, requesting an unconstructible
font returns the invalid handle unchanged. -/
theorem C9_witness :
    (([] : List FontCacheEntry).find?
      (fun e => e.name == "nosuchfont" && e.size == (10 : ℚ) &&
        e.style == FontStyleRegular) = none) ∧
    (FontCacheGetFont badConstruct [] "nosuchfont" 10 FontStyleRegular).1.valid
      = false := by
  refine ⟨rfl, ?_⟩
  have h := C9_getfont_no_fallback badConstruct [] "nosuchfont" 10
    FontStyleRegular rfl
  rw [h.1]
  rfl

/-- Witness for C7: a 50 × 600 image on the 100 × 30 page — taller than
twice the remaining space, so it moves to a new page and is scaled to
fit, preserving its aspect ratio. -/
theorem C7_witness :
    ((0 : ℚ) < 50 ∧ (0 : ℚ) < 600) ∧
    (imgDims 50 600 (imgBase 600 (StartLayout li0))).1 ≤ (StartLayout li0).pageDx ∧
    (imgDims 50 600 (imgBase 600 (StartLayout li0))).2 ≤
      (StartLayout li0).pageDy - (imgBase 600 (StartLayout li0)).currY ∧
    (imgDims 50 600 (imgBase 600 (StartLayout li0))).1 * 600 =
      50 * (imgDims 50 600 (imgBase 600 (StartLayout li0))).2 := by
  have h := C7_image_layout 50 600 7 (StartLayout li0) (by norm_num) (by norm_num)
    rfl (fun _ => rfl) rfl
  exact ⟨⟨by norm_num, by norm_num⟩, h.2.2.2.2.1, h.2.2.2.2.2.1, h.2.2.2.2.2.2.1⟩
